import Mathlib

/-!
# fasthttp-realip: client address resolution

A shallow embedding of `realip.go` (package `realip`) together with the parts of the Go
standard library it calls (`strings.Split`, `strings.TrimSpace`, `strings.ContainsRune`,
`net.ParseIP`, `net.ParseCIDR`, `(*net.IPNet).Contains`, `net.SplitHostPort`).

The library functions are embedded from the sources of Go 1.22 and later, where
`net.ParseIP` and `net.ParseCIDR` go through `netip.ParseAddr`.

Conventions of the embedding.

* A Go `string` is a `List Char` (`Str`): the model covers the strings that are valid UTF-8.
  On those, byte-wise scanning for the ASCII bytes `,` `.` `:` `%` `/` `[` `]` and rune-wise
  trimming coincide with the character-wise definitions below, because a byte below `0x80`
  occurs in valid UTF-8 only as the encoding of the character itself.
* A Go `[]byte` holding an address or a mask is a `List Nat`; every byte store is written with
  an explicit `% 256`.  The nil slice and the empty slice are both `[]` (only `len` is ever
  taken of them); where the code tests a slice against `nil` the model uses `Option`.
* A header value returned by `Peek` is an `Option Str`: `none` is the nil slice.
* A function that can panic returns an `Option`, `none` being the panic: a nil entry of the
  table passed to `Contains`, and the index expressions of `net.SplitHostPort`.  Slicing and
  indexing inside the address parser stay within bounds by the guards that precede them and
  are written with the total list operations.
-/

namespace RealIP

/-- A Go string, as its sequence of characters. -/
abbrev Str := List Char

/-! ## Package `strings` -/

/-- `strings.ContainsRune(s, r)`: whether the rune occurs in the string. -/
def ContainsRune (s : Str) (r : Char) : Bool := decide (r ∈ s)

/-- `strings.Split(s, sep)` for a one-byte separator (`genSplit(s, sep, 0, -1)`): the
substrings between consecutive occurrences of the separator; the empty string yields the
single element `""`. -/
def Split : Str → Char → List Str
  | [], _ => [[]]
  | c :: s, sep =>
    if c = sep then [] :: Split s sep
    else
      match Split s sep with
      | [] => [[c]]
      | x :: xs => (c :: x) :: xs

/-- `unicode.IsSpace`: the Latin-1 cases `\t \n \v \f \r`, space, U+0085, U+00A0, and beyond
Latin-1 the `White_Space` table. -/
def isSpace (c : Char) : Bool :=
  let r := c.toNat
  if r ≤ 0xFF then
    (0x09 ≤ r && r ≤ 0x0D) || r == 0x20 || r == 0x85 || r == 0xA0
  else
    r == 0x1680 || (0x2000 ≤ r && r ≤ 0x200A) || r == 0x2028 || r == 0x2029 ||
      r == 0x202F || r == 0x205F || r == 0x3000

/-- `strings.TrimSpace(s)`: all leading and trailing white space removed. -/
def TrimSpace (s : Str) : Str := (s.dropWhile isSpace).rdropWhile isSpace

/-! ## Package `net/netip`: parsing -/

/-- The `z` field of `netip.Addr`: `z0` (zero address), `z4` (IPv4), or an IPv6 address with
its zone (`z6noz` is `z6 []`). -/
inductive Zone where
  | z0
  | z4
  | z6 (zone : Str)
  deriving DecidableEq, Repr

/-- The struct `netip.Addr`: the 128-bit address as two 64-bit halves, and the family tag. -/
structure Addr where
  hi : Nat
  lo : Nat
  z : Zone
  deriving DecidableEq, Repr

/-- `byteorder.BEUint64`: the big-endian value of eight bytes. -/
def beUint64 (b : List Nat) : Nat :=
  (b.getD 7 0) ||| (b.getD 6 0) <<< 8 ||| (b.getD 5 0) <<< 16 ||| (b.getD 4 0) <<< 24 |||
    (b.getD 3 0) <<< 32 ||| (b.getD 2 0) <<< 40 ||| (b.getD 1 0) <<< 48 ||| (b.getD 0 0) <<< 56

/-- `byteorder.BEPutUint64`: the eight bytes of a 64-bit value, most significant first. -/
def bePutUint64 (v : Nat) : List Nat :=
  [(v >>> 56) % 256, (v >>> 48) % 256, (v >>> 40) % 256, (v >>> 32) % 256,
   (v >>> 24) % 256, (v >>> 16) % 256, (v >>> 8) % 256, v % 256]

/-- `netip.AddrFrom4`. -/
def AddrFrom4 (addr : List Nat) : Addr :=
  { hi := 0
    lo := 0xffff00000000 ||| (addr.getD 0 0) <<< 24 ||| (addr.getD 1 0) <<< 16 |||
            (addr.getD 2 0) <<< 8 ||| (addr.getD 3 0)
    z := Zone.z4 }

/-- `netip.AddrFrom16`. -/
def AddrFrom16 (addr : List Nat) : Addr :=
  { hi := beUint64 (addr.take 8), lo := beUint64 (addr.drop 8), z := Zone.z6 [] }

/-- `Addr.WithZone`: only an IPv6 address takes a zone. -/
def Addr.WithZone (ip : Addr) (zone : Str) : Addr :=
  match ip.z with
  | Zone.z6 _ => { ip with z := Zone.z6 zone }
  | _ => ip

/-- `Addr.Zone`: the zone of an IPv6 address, the empty string otherwise. -/
def Addr.Zone (ip : Addr) : Str :=
  match ip.z with
  | Zone.z6 zone => zone
  | _ => []

/-- `Addr.BitLen`. -/
def Addr.BitLen (ip : Addr) : Nat :=
  match ip.z with
  | Zone.z0 => 0
  | Zone.z4 => 32
  | Zone.z6 _ => 128

/-- `Addr.As16`: the sixteen bytes of the address. -/
def Addr.As16 (ip : Addr) : List Nat := bePutUint64 ip.hi ++ bePutUint64 ip.lo

/-- The decimal digits `'0'..'9'`. -/
def isDigit (c : Char) : Bool := decide ('0' ≤ c) && decide (c ≤ '9')

/-- The loop of `netip.parseIPv4Fields` over the remaining input.  `prev` is the byte before
the current one (`none` at index 0), so that `i == 0` is `prev = none`, `s[i-1] == '.'` is
`prev = some '.'`, and `i == len(s)-1` is `rest = []`. -/
def parseIPv4FieldsLoop :
    Str → Option Char → (val pos digLen : Nat) → (fields : List Nat) → Option (List Nat)
  | [], _, val, pos, _, fields =>
    if pos < 3 then none else some (fields.set 3 (val % 256))
  | c :: rest, prev, val, pos, digLen, fields =>
    if isDigit c then
      if digLen = 1 ∧ val = 0 then none
      else
        let val1 := val * 10 + (c.toNat - '0'.toNat)
        if val1 > 255 then none
        else parseIPv4FieldsLoop rest (some c) val1 pos (digLen + 1) fields
    else if c = '.' then
      if prev = none ∨ rest = [] ∨ prev = some '.' then none
      else if pos = 3 then none
      else parseIPv4FieldsLoop rest (some c) 0 (pos + 1) 0 (fields.set pos (val % 256))
    else none

/-- `netip.parseIPv4Fields(in, off, end, fields)` on `s = in[off:end]`: the four octets are
stored into the four-byte slice `fields`; `none` is the error return. -/
def parseIPv4Fields (s : Str) (fields : List Nat) : Option (List Nat) :=
  parseIPv4FieldsLoop s none 0 0 0 fields

/-- `netip.parseIPv4`. -/
def parseIPv4 (s : Str) : Option Addr :=
  match parseIPv4Fields s [0, 0, 0, 0] with
  | none => none
  | some fields => some (AddrFrom4 fields)

/-- The value of a hexadecimal digit, if the byte is one. -/
def hexVal (c : Char) : Option Nat :=
  if isDigit c then some (c.toNat - '0'.toNat)
  else if decide ('a' ≤ c) && decide (c ≤ 'f') then some (c.toNat - 'a'.toNat + 10)
  else if decide ('A' ≤ c) && decide (c ≤ 'F') then some (c.toNat - 'A'.toNat + 10)
  else none

/-- The inner loop of `netip.parseIPv6` reading one hexadecimal group (`acc` is a `uint32`).
Returns the number of digits read, the value, and the input from the first non-digit on;
`none` is the error return (more than four digits, or a value above `0xFFFF`). -/
def parseHexGroup : Str → (off acc : Nat) → Option (Nat × Nat × Str)
  | [], off, acc => some (off, acc, [])
  | c :: s, off, acc =>
    match hexVal c with
    | none => some (off, acc, c :: s)
    | some d =>
      let acc1 := ((acc <<< 4) % 2 ^ 32 + d) % 2 ^ 32
      if off > 3 then none
      else if acc1 > 0xFFFF then none
      else parseHexGroup s (off + 1) acc1

/-- The loop variables of `netip.parseIPv6` when the main loop is left. -/
structure V6State where
  s : Str
  i : Nat
  ip : List Nat
  ellipsis : Option Nat
  deriving DecidableEq, Repr

/-- The main loop `for i < 16` of `netip.parseIPv6`.  The counter `i` advances by two on every
iteration that continues, so the recursion is on the number `k` of 16-bit groups still
missing, with `i = 16 - 2 * k`.  `ellipsis` is `none` for `-1`.  The result is the state at
loop exit; `none` is an error return from inside the loop. -/
def parseIPv6Loop : (k : Nat) → Str → (ip : List Nat) → (ellipsis : Option Nat) → Option V6State
  | 0, s, ip, ellipsis => some ⟨s, 16, ip, ellipsis⟩
  | k + 1, s, ip, ellipsis =>
    let i := 16 - 2 * (k + 1)
    match parseHexGroup s 0 0 with
    | none => none
    | some (off, acc, rest) =>
      if off = 0 then none
      else if rest.head? = some '.' then
        if ellipsis = none ∧ i ≠ 12 then none
        else if i + 4 > 16 then none
        else
          match parseIPv4Fields s ((ip.drop i).take 4) with
          | none => none
          | some fields => some ⟨[], i + 4, ip.take i ++ fields ++ ip.drop (i + 4), ellipsis⟩
      else
        let ip1 := (ip.set i ((acc >>> 8) % 256)).set (i + 1) (acc % 256)
        match rest with
        | [] => some ⟨[], i + 2, ip1, ellipsis⟩
        | c :: rest1 =>
          if c ≠ ':' then none
          else
            match rest1 with
            | [] => none
            | c1 :: rest2 =>
              if c1 = ':' then
                if ellipsis.isSome then none
                else
                  match rest2 with
                  | [] => some ⟨[], i + 2, ip1, some (i + 2)⟩
                  | _ :: _ => parseIPv6Loop k rest2 ip1 (some (i + 2))
              else parseIPv6Loop k rest1 ip1 ellipsis

/-- The expansion of the ellipsis at the end of `netip.parseIPv6`: the bytes
`ip[ellipsis:i]` are moved to the end of the array (`for j := i - 1; j >= ellipsis; j--`,
written over the offsets `t = i - 1 - j`) and the gap is cleared. -/
def expandEllipsis (ip : List Nat) (i ellipsis : Nat) : List Nat :=
  let n := 16 - i
  let moved := (List.range (i - ellipsis)).foldl
    (fun a t => a.set (i - 1 - t + n) (a.getD (i - 1 - t) 0)) ip
  (List.range n).foldl (fun a t => a.set (ellipsis + t) 0) moved

/-- The part of `netip.parseIPv6` after the zone and a leading ellipsis have been split off:
the main loop, the check that the input is used up, and the expansion of the ellipsis. -/
def parseIPv6Groups (s : Str) (ellipsis : Option Nat) (zone : Str) : Option Addr :=
  match parseIPv6Loop 8 s (List.replicate 16 0) ellipsis with
  | none => none
  | some st =>
    if st.s ≠ [] then none
    else if st.i < 16 then
      match st.ellipsis with
      | none => none
      | some e => some ((AddrFrom16 (expandEllipsis st.ip st.i e)).WithZone zone)
    else if st.ellipsis.isSome then none
    else some ((AddrFrom16 st.ip).WithZone zone)

/-- The part of `netip.parseIPv6` after the zone has been split off: a leading `::`, which
may be the whole address. -/
def parseIPv6NoZone (s : Str) (zone : Str) : Option Addr :=
  match s with
  | ':' :: ':' :: [] => some ((Addr.mk 0 0 (Zone.z6 [])).WithZone zone)
  | ':' :: ':' :: c :: s1 => parseIPv6Groups (c :: s1) (some 0) zone
  | _ => parseIPv6Groups s none zone

/-- `netip.parseIPv6`: the zone after the first `%` is split off first and must not be
empty. -/
def parseIPv6 (input : Str) : Option Addr :=
  match input.indexOf? '%' with
  | none => parseIPv6NoZone input []
  | some i =>
    if input.drop (i + 1) = [] then none
    else parseIPv6NoZone (input.take i) (input.drop (i + 1))

/-- `netip.ParseAddr`: dispatch on the first of `.`, `:` and `%` in the input. -/
def ParseAddr (s : Str) : Option Addr :=
  match s.find? (fun c => c = '.' ∨ c = ':' ∨ c = '%') with
  | some '.' => parseIPv4 s
  | some ':' => parseIPv6 s
  | _ => none


/-! ## Package `net` -/

/-- `net.ParseIP` (through `net.parseIP`): the sixteen-byte form of the parsed address;
`none` is the nil result, returned when parsing fails or the address carries a zone. -/
def ParseIP (s : Str) : Option (List Nat) :=
  match ParseAddr s with
  | none => none
  | some ip => if ip.Zone ≠ [] then none else some ip.As16

/-- The constant `big` of package `net`. -/
def big : Nat := 0xFFFFFF

/-- The loop of `net.dtoi`: `n` is the value read so far and `i` the number of digits. -/
def dtoiLoop : Str → (n i : Nat) → Nat × Nat × Bool
  | [], n, i => if i = 0 then (0, 0, false) else (n, i, true)
  | c :: s, n, i =>
    if isDigit c then
      let n1 := n * 10 + (c.toNat - '0'.toNat)
      if n1 ≥ big then (big, i, false) else dtoiLoop s n1 (i + 1)
    else if i = 0 then (0, 0, false) else (n, i, true)

/-- `net.dtoi`: the decimal number at the start of the string, the number of bytes consumed,
and whether a number was read. -/
def dtoi (s : Str) : Nat × Nat × Bool := dtoiLoop s 0 0

/-- The loop of `net.CIDRMask` over the `l` bytes of the mask; `n` is the number of one bits
still to be written.  `^byte(0xff >> n)` is the complement within a byte. -/
def cidrMaskLoop : (l n : Nat) → List Nat
  | 0, _ => []
  | l + 1, n =>
    if n ≥ 8 then 0xff :: cidrMaskLoop l (n - 8)
    else (((0xff >>> n) % 256) ^^^ 0xff) :: cidrMaskLoop l 0

/-- `net.CIDRMask(ones, bits)`; the nil mask is `[]`. -/
def CIDRMask (ones bits : Nat) : List Nat :=
  if bits ≠ 8 * 4 ∧ bits ≠ 8 * 16 then []
  else if ones > bits then []
  else cidrMaskLoop (bits / 8) ones

/-- The prefix `v4InV6Prefix` of an IPv4 address in sixteen-byte form. -/
def v4InV6Prefix : List Nat := [0, 0, 0, 0, 0, 0, 0, 0, 0, 0, 0xff, 0xff]

/-- `IP.To4`: the four-byte form of an IPv4 address (given in four or in sixteen bytes);
`none` is the nil result. -/
def To4 (ip : List Nat) : Option (List Nat) :=
  if ip.length = 4 then some ip
  else if ip.length = 16 ∧ (ip.take 10).all (fun b => b = 0) ∧ ip.getD 10 0 = 0xff ∧
      ip.getD 11 0 = 0xff then some (ip.drop 12)
  else none

/-- The helper `allFF` of package `net`. -/
def allFF (b : List Nat) : Bool := b.all (fun c => c = 0xff)

/-- `IP.Mask`: the address with the mask applied byte by byte; the nil result is `[]`. -/
def Mask (ip mask : List Nat) : List Nat :=
  let mask1 := if mask.length = 16 ∧ ip.length = 4 ∧ allFF (mask.take 12) then mask.drop 12
    else mask
  let ip1 := if mask1.length = 4 ∧ ip.length = 16 ∧ ip.take 12 = v4InV6Prefix then ip.drop 12
    else ip
  if ip1.length ≠ mask1.length then []
  else List.zipWith (fun a m => a &&& m) ip1 mask1

/-- The struct `net.IPNet`: network number and mask. -/
structure IPNet where
  IP : List Nat
  Mask : List Nat
  deriving DecidableEq, Repr

/-- `net.ParseCIDR`, its second result: the network of the CIDR literal; `none` is the nil
pointer returned together with an error. -/
def ParseCIDR (s : Str) : Option IPNet :=
  match s.indexOf? '/' with
  | none => none
  | some i =>
    let addr := s.take i
    let mask := s.drop (i + 1)
    match ParseAddr addr with
    | none => none
    | some ipAddr =>
      if ipAddr.Zone ≠ [] then none
      else
        match dtoi mask with
        | (n, j, ok) =>
          if !ok ∨ j ≠ mask.length ∨ n > ipAddr.BitLen then none
          else
            let m := CIDRMask n ipAddr.BitLen
            some ⟨Mask ipAddr.As16 m, m⟩

/-- The helper `networkNumberAndMask` of package `net`; `none` is the result `nil, nil`. -/
def networkNumberAndMask (n : IPNet) : Option (List Nat × List Nat) :=
  let ip : Option (List Nat) :=
    match To4 n.IP with
    | some ip4 => some ip4
    | none => if n.IP.length ≠ 16 then none else some n.IP
  match ip with
  | none => none
  | some ip =>
    if n.Mask.length = 4 then
      if ip.length ≠ 4 then none else some (ip, n.Mask)
    else if n.Mask.length = 16 then
      if ip.length = 4 then some (ip, n.Mask.drop 12) else some (ip, n.Mask)
    else none

/-- The comparison loop of `IPNet.Contains` over bytes of equal index. -/
def containsLoop : (nn m ip : List Nat) → Bool
  | a :: nn, b :: m, c :: ip => if a &&& b ≠ c &&& b then false else containsLoop nn m ip
  | _, _, _ => true

/-- `(*IPNet).Contains` on a non-nil receiver. -/
def Contains (n : IPNet) (ip : List Nat) : Bool :=
  let (nn, m) : List Nat × List Nat :=
    match networkNumberAndMask n with
    | none => ([], [])
    | some r => r
  let ip1 := match To4 ip with
    | some x => x
    | none => ip
  if ip1.length ≠ nn.length then false
  else containsLoop nn m ip1

/-- `net.SplitHostPort`: host, port and error (`none` for nil; otherwise the text of the
`AddrError`).  The outer `none` is an index-out-of-range panic. -/
def SplitHostPort (hostport : Str) : Option (Str × Str × Option Str) :=
  let missingPort : Str := "missing port in address".toList
  let tooManyColons : Str := "too many colons in address".toList
  let addrErr (why : Str) : Option (Str × Str × Option Str) := some ([], [], some why)
  -- The port starts after the last colon.
  match (hostport.reverse.indexOf? ':').map (fun r => hostport.length - 1 - r) with
  | none => addrErr missingPort
  | some i =>
    match hostport with
    | [] => none
    | c0 :: _ =>
      let finish (host : Str) (j k : Nat) : Option (Str × Str × Option Str) :=
        if '[' ∈ hostport.drop j then addrErr "unexpected \x27[\x27 in address".toList
        else if ']' ∈ hostport.drop k then addrErr "unexpected \x27]\x27 in address".toList
        else some (host, hostport.drop (i + 1), none)
      if c0 = '[' then
        -- Expect the first ']' just before the last ':'.
        match hostport.indexOf? ']' with
        | none => addrErr "missing \x27]\x27 in address".toList
        | some e =>
          if e + 1 = hostport.length then addrErr missingPort
          else if e + 1 = i then finish ((hostport.take e).drop 1) 1 (e + 1)
          else
            match hostport.get? (e + 1) with
            | none => none
            | some c => if c = ':' then addrErr tooManyColons else addrErr missingPort
      else
        let host := hostport.take i
        if ':' ∈ host then addrErr tooManyColons
        else finish host 0 0

/-! ## Package `realip` -/

/-- The literals `maxCidrBlocks` of `init`. -/
def maxCidrBlocks : List Str :=
  ["127.0.0.1/8".toList, "10.0.0.0/8".toList, "172.16.0.0/12".toList, "192.168.0.0/16".toList,
   "169.254.0.0/16".toList, "::1/128".toList, "fc00::/7".toList, "fe80::/10".toList]

/-- The table `cidrs` as filled by `init`: entry `i` is the network parsed from literal `i`,
the error of `net.ParseCIDR` being ignored (`none` is a nil pointer). -/
def cidrs : List (Option IPNet) := maxCidrBlocks.map ParseCIDR

/-- The loop `for i := range cidrs` of `isPrivateAddress`; calling `Contains` on a nil
entry panics. -/
def cidrsLoop : List (Option IPNet) → List Nat → Option (Bool × Option Str)
  | [], _ => some (false, none)
  | none :: _, _ => none
  | some n :: rest, ipAddress =>
    if Contains n ipAddress then some (true, none) else cidrsLoop rest ipAddress

/-- `isPrivateAddress`: the pair (bool, error), the error being `none` for nil and the
message otherwise; the outer `none` is a panic. -/
def isPrivateAddress (address : Str) : Option (Bool × Option Str) :=
  match ParseIP address with
  | none => some (false, some "address is not valid".toList)
  | some ipAddress => cidrsLoop cidrs ipAddress

/-- `string(b)` for a byte slice that may be nil. -/
def stringOf (b : Option Str) : Str := b.getD []

/-- The loop over the forwarded chain in `FromRequest`: `some (some a)` is the early
`return address`, `some none` the end of the loop, `none` a panic. -/
def chainLoop : List Str → Option (Option Str)
  | [] => some none
  | a :: rest =>
    let address := TrimSpace a
    match isPrivateAddress address with
    | none => none
    | some (isPrivate, err) =>
      if !isPrivate ∧ err = none then some (some address) else chainLoop rest

/-- `FromRequest`, as a function of the two header values returned by `Peek` and of the
string of the remote address; `none` is a panic. -/
def FromRequest (xRealIP xForwardedFor : Option Str) (RemoteAddr : Str) : Option Str :=
  if xRealIP = none ∧ xForwardedFor = none then
    -- If there are colon in remote address, remove the port number
    if ContainsRune RemoteAddr ':' then
      match SplitHostPort RemoteAddr with
      | none => none
      | some (remoteIP, _, _) => some remoteIP
    else some RemoteAddr
  else
    match chainLoop (Split (stringOf xForwardedFor) ',') with
    | none => none
    | some (some address) => some address
    | some none => some (stringOf xRealIP)

/-! ## The package state made explicit -/

/-- The package-level variables of `realip`: the slice `cidrs`. -/
structure Globals where
  cidrs : List (Option IPNet)
  deriving DecidableEq, Repr

/-- `init` as a state transformer: `cidrs` is allocated and every entry is assigned the
network parsed from its literal. -/
def init (_ : Globals) : Globals := ⟨maxCidrBlocks.map ParseCIDR⟩

/-- `isPrivateAddress` with the package state passed in and out: the table is read by the
loop `for i := range cidrs` and never assigned. -/
def isPrivateAddressG (g : Globals) (address : Str) :
    Option (Bool × Option Str) × Globals :=
  match ParseIP address with
  | none => (some (false, some "address is not valid".toList), g)
  | some ipAddress => (cidrsLoop g.cidrs ipAddress, g)

/-- The loop over the forwarded chain with the package state threaded through the calls of
`isPrivateAddress`. -/
def chainLoopG (g : Globals) : List Str → Option (Option Str) × Globals
  | [] => (some none, g)
  | a :: rest =>
    let address := TrimSpace a
    match isPrivateAddressG g address with
    | (none, g1) => (none, g1)
    | (some (isPrivate, err), g1) =>
      if !isPrivate ∧ err = none then (some (some address), g1) else chainLoopG g1 rest

/-- `FromRequest` with the package state passed in and out. -/
def FromRequestG (g : Globals) (xRealIP xForwardedFor : Option Str) (RemoteAddr : Str) :
    Option Str × Globals :=
  if xRealIP = none ∧ xForwardedFor = none then
    if ContainsRune RemoteAddr ':' then
      match SplitHostPort RemoteAddr with
      | none => (none, g)
      | some (remoteIP, _, _) => (some remoteIP, g)
    else (some RemoteAddr, g)
  else
    match chainLoopG g (Split (stringOf xForwardedFor) ',') with
    | (none, g1) => (none, g1)
    | (some (some address), g1) => (some address, g1)
    | (some none, g1) => (some (stringOf xRealIP), g1)

/-! ## The listed ranges, as the specification words them -/

/-- The number denoted by the bytes of an address, most significant byte first. -/
def ipValue (b : List Nat) : Nat := b.foldl (fun v x => v * 256 + x) 0

/-- A CIDR block as a contiguous range of addresses: the address width in bits (32 for IPv4,
128 for IPv6), the number of the first address, and the prefix length. -/
structure Block where
  bits : Nat
  base : Nat
  prefixLen : Nat
  deriving DecidableEq, Repr

/-- The first address of the block. -/
def Block.first (b : Block) : Nat := b.base

/-- The last address of the block. -/
def Block.last (b : Block) : Nat := b.base + 2 ^ (b.bits - b.prefixLen) - 1

/-- The eight ranges of the specification: 127.0.0.0/8, 10.0.0.0/8, 172.16.0.0/12,
192.168.0.0/16, 169.254.0.0/16, ::1/128, fc00::/7, fe80::/10. -/
def listedBlocks : List Block :=
  [⟨32, 127 * 2 ^ 24, 8⟩, ⟨32, 10 * 2 ^ 24, 8⟩, ⟨32, 172 * 2 ^ 24 + 16 * 2 ^ 16, 12⟩,
   ⟨32, 192 * 2 ^ 24 + 168 * 2 ^ 16, 16⟩, ⟨32, 169 * 2 ^ 24 + 254 * 2 ^ 16, 16⟩,
   ⟨128, 1, 128⟩, ⟨128, 0xfc00 * 2 ^ 112, 7⟩, ⟨128, 0xfe80 * 2 ^ 112, 10⟩]

/-- Whether a parsed address (sixteen bytes) lies inside a block.  An IPv4 block holds the
IPv4 addresses (parsed addresses of the form `::ffff:a.b.c.d`, which is how `a.b.c.d` itself
is parsed) whose 32-bit number is in the range; an IPv6 block holds the addresses whose
128-bit number is in the range. -/
def inBlock (ip : List Nat) (b : Block) : Bool :=
  if b.bits = 32 then
    match To4 ip with
    | some ip4 => decide (b.first ≤ ipValue ip4) && decide (ipValue ip4 ≤ b.last)
    | none => false
  else decide (b.first ≤ ipValue ip) && decide (ipValue ip ≤ b.last)

/-- Whether a parsed address lies inside one of the eight listed ranges. -/
def inListedRanges (ip : List Nat) : Bool := listedBlocks.any (inBlock ip)

/-! ## The forwarding chain, as the specification words it -/

/-- The forwarding chain of a request: the `X-Forwarded-For` value split on commas, with
white space trimmed from each element. -/
def forwardingChain (xForwardedFor : Option Str) : List Str :=
  (Split (stringOf xForwardedFor) ',').map TrimSpace

/-- A candidate qualifies when its classification succeeds (no error) and is `false`. -/
def qualifies (address : Str) : Bool := decide (isPrivateAddress address = some (false, none))

/-- White space together with the comma. -/
def isSpaceOrComma (c : Char) : Bool := isSpace c || decide (c = ',')

/-- The characters of an address literal without zone: hexadecimal digits, colon, dot. -/
def isAddrChar (c : Char) : Bool := (hexVal c).isSome || decide (c = ':') || decide (c = '.')

/-! ## The table, as the specification words it -/

/-- The `n` bytes of the number `v`, most significant byte first. -/
def bytesOf (n v : Nat) : List Nat :=
  (List.range n).map (fun i => (v >>> (8 * (n - 1 - i))) % 256)

/-- A block written as network number and mask: the bytes of its first address, and the
bytes of the number whose `prefixLen` leading bits are one. -/
def Block.toIPNet (b : Block) : IPNet :=
  ⟨bytesOf (b.bits / 8) b.base, bytesOf (b.bits / 8) (2 ^ b.bits - 2 ^ (b.bits - b.prefixLen))⟩

/-- The relation between the value and the number of digits of the octet being read by
`netip.parseIPv4Fields`: an octet has no leading zero and stays below 256, so it has at most
three digits. -/
def octetInv (val digLen : Nat) : Prop :=
  (digLen = 0 ∧ val = 0) ∨ (digLen = 1 ∧ val < 10) ∨ (digLen = 2 ∧ 10 ≤ val) ∨
    (digLen = 3 ∧ 100 ≤ val)

/-- A chain entry that carries a port: an IPv4 dotted-decimal literal followed by `:` and a
port, or a bracketed host followed by `:` and a port. -/
def hasPort (e : Str) : Prop :=
  (∃ a p, (parseIPv4 a).isSome = true ∧ e = a ++ ':' :: p) ∨
    (∃ v6 p, e = '[' :: v6 ++ ']' :: ':' :: p)

/-! ## Facts about the table -/

theorem cidrs_eq : cidrs =
    [some ⟨[127, 0, 0, 0], [255, 0, 0, 0]⟩, some ⟨[10, 0, 0, 0], [255, 0, 0, 0]⟩,
     some ⟨[172, 16, 0, 0], [255, 240, 0, 0]⟩, some ⟨[192, 168, 0, 0], [255, 255, 0, 0]⟩,
     some ⟨[169, 254, 0, 0], [255, 255, 0, 0]⟩,
     some ⟨[0, 0, 0, 0, 0, 0, 0, 0, 0, 0, 0, 0, 0, 0, 0, 1],
       [255, 255, 255, 255, 255, 255, 255, 255, 255, 255, 255, 255, 255, 255, 255, 255]⟩,
     some ⟨[252, 0, 0, 0, 0, 0, 0, 0, 0, 0, 0, 0, 0, 0, 0, 0],
       [254, 0, 0, 0, 0, 0, 0, 0, 0, 0, 0, 0, 0, 0, 0, 0]⟩,
     some ⟨[254, 128, 0, 0, 0, 0, 0, 0, 0, 0, 0, 0, 0, 0, 0, 0],
       [255, 192, 0, 0, 0, 0, 0, 0, 0, 0, 0, 0, 0, 0, 0, 0]⟩] := by
  decide

set_option maxRecDepth 100000 in
theorem land_255 : ∀ b, b < 256 → b &&& 255 = b := by decide

set_option maxRecDepth 100000 in
theorem land_240 : ∀ b, b < 256 → (b &&& 240 = 16 ↔ 16 ≤ b ∧ b ≤ 31) := by decide

set_option maxRecDepth 100000 in
theorem land_254 : ∀ b, b < 256 → (b &&& 254 = 252 ↔ 252 ≤ b ∧ b ≤ 253) := by decide

set_option maxRecDepth 100000 in
theorem land_192 : ∀ b, b < 256 → (b &&& 192 = 128 ↔ 128 ≤ b ∧ b ≤ 191) := by decide

theorem cidrsLoop_v4 (a b c d : Nat) (ha : a < 256) (hb : b < 256) (hc : c < 256) (hd : d < 256) :
    cidrsLoop cidrs [0, 0, 0, 0, 0, 0, 0, 0, 0, 0, 255, 255, a, b, c, d] =
      some (inListedRanges [0, 0, 0, 0, 0, 0, 0, 0, 0, 0, 255, 255, a, b, c, d], none) := by
  rw [cidrs_eq]
  simp only [cidrsLoop, Contains, networkNumberAndMask, To4, containsLoop, inListedRanges, listedBlocks, inBlock, ipValue, Block.first, Block.last, List.any, List.foldl]
  simp only [land_255 _ ha, land_255 _ hb, land_255 _ hc, land_255 _ hd,
    show (127 : ℕ) &&& 255 = 127 from rfl, show (10 : ℕ) &&& 255 = 10 from rfl,
    show (172 : ℕ) &&& 255 = 172 from rfl, show (16 : ℕ) &&& 240 = 16 from rfl,
    show (192 : ℕ) &&& 255 = 192 from rfl, show (168 : ℕ) &&& 255 = 168 from rfl,
    show (169 : ℕ) &&& 255 = 169 from rfl, show (254 : ℕ) &&& 255 = 254 from rfl]
  simp
  have h240 := land_240 b hb
  split_ifs with h1 h2 h3 h4 h5 <;> simp <;> omega



theorem ipValue_foldl (l : List Nat) (v : Nat) :
    l.foldl (fun v x => v * 256 + x) v = v * 256 ^ l.length + ipValue l := by
  induction l generalizing v with
  | nil => simp [ipValue]
  | cons a l ih =>
    simp only [ipValue, List.foldl_cons, List.length_cons]
    rw [ih (v * 256 + a), ih (0 * 256 + a)]
    simp only [ipValue]
    ring

theorem ipValue_cons (a : Nat) (l : List Nat) :
    ipValue (a :: l) = a * 256 ^ l.length + ipValue l := by
  simp only [ipValue, List.foldl_cons]
  rw [ipValue_foldl]
  simp [ipValue]

theorem ipValue_lt (l : List Nat) (h : ∀ x ∈ l, x < 256) : ipValue l < 256 ^ l.length := by
  induction l with
  | nil => simp [ipValue]
  | cons a l ih =>
    rw [ipValue_cons, List.length_cons, pow_succ]
    have h1 := ih (fun x hx => h x (List.mem_cons_of_mem _ hx))
    have h2 : a < 256 := h a (List.mem_cons_self _ _)
    nlinarith

theorem ipValue_eq_zero (l : List Nat) (h : ipValue l = 0) : ∀ x ∈ l, x = 0 := by
  induction l with
  | nil => simp
  | cons a l ih =>
    rw [ipValue_cons] at h
    have hp : 0 < 256 ^ l.length := by positivity
    have ha : a = 0 := by
      by_contra hne
      have : 256 ^ l.length ≤ a * 256 ^ l.length := Nat.le_mul_of_pos_left _ (Nat.pos_of_ne_zero hne)
      omega
    subst ha
    simp only [zero_mul, zero_add] at h
    intro x hx
    rcases List.mem_cons.1 hx with rfl | hx
    · rfl
    · exact ih h x hx


theorem To4_sixteen (b0 b1 b2 b3 b4 b5 b6 b7 b8 b9 b10 b11 b12 b13 b14 b15 : Nat) :
    To4 [b0, b1, b2, b3, b4, b5, b6, b7, b8, b9, b10, b11, b12, b13, b14, b15] = if b0 = 0 ∧ b1 = 0 ∧ b2 = 0 ∧ b3 = 0 ∧ b4 = 0 ∧ b5 = 0 ∧ b6 = 0 ∧ b7 = 0 ∧ b8 = 0 ∧ b9 = 0 ∧ b10 = 255 ∧ b11 = 255 then some [b12, b13, b14, b15] else none := by
  simp only [To4]
  simp [and_assoc]

theorem ipValue_sixteen_eq_one (b0 b1 b2 b3 b4 b5 b6 b7 b8 b9 b10 b11 b12 b13 b14 b15 : Nat) :
    ipValue [b0, b1, b2, b3, b4, b5, b6, b7, b8, b9, b10, b11, b12, b13, b14, b15] = 1 ↔ (0 = b0 ∧ 0 = b1 ∧ 0 = b2 ∧ 0 = b3 ∧ 0 = b4 ∧ 0 = b5 ∧ 0 = b6 ∧ 0 = b7 ∧ 0 = b8 ∧ 0 = b9 ∧ 0 = b10 ∧ 0 = b11 ∧ 0 = b12 ∧ 0 = b13 ∧ 0 = b14 ∧ 1 = b15) := by
  constructor
  · intro h
    have e : ipValue [b0, b1, b2, b3, b4, b5, b6, b7, b8, b9, b10, b11, b12, b13, b14, b15] = ipValue [b0, b1, b2, b3, b4, b5, b6, b7, b8, b9, b10, b11, b12, b13, b14] * 256 + b15 := by
      simp [ipValue]
    rw [e] at h
    have hz := ipValue_eq_zero [b0, b1, b2, b3, b4, b5, b6, b7, b8, b9, b10, b11, b12, b13, b14] (by omega)
    simp only [List.mem_cons, List.mem_singleton, forall_eq_or_imp, forall_eq, List.not_mem_nil,
      false_implies, implies_true, and_true] at hz
    omega
  · rintro ⟨rfl, rfl, rfl, rfl, rfl, rfl, rfl, rfl, rfl, rfl, rfl, rfl, rfl, rfl, rfl, rfl⟩
    rfl

theorem ipValue_sixteen_split (b0 b1 b2 b3 b4 b5 b6 b7 b8 b9 b10 b11 b12 b13 b14 b15 : Nat)
    (h2 : b2 < 256) (h3 : b3 < 256) (h4 : b4 < 256) (h5 : b5 < 256) (h6 : b6 < 256) (h7 : b7 < 256) (h8 : b8 < 256) (h9 : b9 < 256) (h10 : b10 < 256) (h11 : b11 < 256) (h12 : b12 < 256) (h13 : b13 < 256) (h14 : b14 < 256) (h15 : b15 < 256) :
    ∃ R, R < 5192296858534827628530496329220096 ∧ ipValue [b0, b1, b2, b3, b4, b5, b6, b7, b8, b9, b10, b11, b12, b13, b14, b15] =
      b0 * 1329227995784915872903807060280344576 + b1 * 5192296858534827628530496329220096 + R := by
  refine ⟨ipValue [b2, b3, b4, b5, b6, b7, b8, b9, b10, b11, b12, b13, b14, b15], ?_, ?_⟩
  · have hR := ipValue_lt [b2, b3, b4, b5, b6, b7, b8, b9, b10, b11, b12, b13, b14, b15] (by simp; omega)
    simp only [List.length_cons, List.length_nil] at hR
    norm_num at hR
    exact hR
  · rw [ipValue_cons, ipValue_cons]
    simp only [List.length_cons, List.length_nil]
    norm_num
    ring

theorem cidrsLoop_v6 (b0 b1 b2 b3 b4 b5 b6 b7 b8 b9 b10 b11 b12 b13 b14 b15 : Nat)
    (h0 : b0 < 256) (h1 : b1 < 256) (h2 : b2 < 256) (h3 : b3 < 256) (h4 : b4 < 256) (h5 : b5 < 256) (h6 : b6 < 256) (h7 : b7 < 256) (h8 : b8 < 256) (h9 : b9 < 256) (h10 : b10 < 256) (h11 : b11 < 256) (h12 : b12 < 256) (h13 : b13 < 256) (h14 : b14 < 256) (h15 : b15 < 256)
    (hn : ¬(b0 = 0 ∧ b1 = 0 ∧ b2 = 0 ∧ b3 = 0 ∧ b4 = 0 ∧ b5 = 0 ∧ b6 = 0 ∧ b7 = 0 ∧ b8 = 0 ∧ b9 = 0 ∧ b10 = 255 ∧ b11 = 255)) :
    cidrsLoop cidrs [b0, b1, b2, b3, b4, b5, b6, b7, b8, b9, b10, b11, b12, b13, b14, b15] =
      some (inListedRanges [b0, b1, b2, b3, b4, b5, b6, b7, b8, b9, b10, b11, b12, b13, b14, b15], none) := by
  have hto4 : To4 [b0, b1, b2, b3, b4, b5, b6, b7, b8, b9, b10, b11, b12, b13, b14, b15] = none := by
    rw [To4_sixteen, if_neg hn]
  obtain ⟨R, hR, hV⟩ := ipValue_sixteen_split b0 b1 b2 b3 b4 b5 b6 b7 b8 b9 b10 b11 b12 b13 b14 b15 h2 h3 h4 h5 h6 h7 h8 h9 h10 h11 h12 h13 h14 h15
  have hone := ipValue_sixteen_eq_one b0 b1 b2 b3 b4 b5 b6 b7 b8 b9 b10 b11 b12 b13 b14 b15
  rw [cidrs_eq]
  simp only [cidrsLoop, Contains, hto4, inListedRanges,
    listedBlocks, inBlock, Block.first, Block.last, List.any]
  simp only [networkNumberAndMask, To4, containsLoop]
  simp
  simp only [land_255 _ h0, land_255 _ h1, land_255 _ h2, land_255 _ h3, land_255 _ h4, land_255 _ h5, land_255 _ h6, land_255 _ h7, land_255 _ h8, land_255 _ h9, land_255 _ h10, land_255 _ h11, land_255 _ h12, land_255 _ h13, land_255 _ h14, land_255 _ h15]
  simp only [show (252 : ℕ) &&& 254 = 252 from rfl, show (254 : ℕ) &&& 255 = 254 from rfl,
    show (128 : ℕ) &&& 192 = 128 from rfl]
  have h254 := land_254 b0 h0
  have h192 := land_192 b1 h1
  simp only [← hone]
  clear hone hn hto4 h2 h3 h4 h5 h6 h7 h8 h9 h10 h11 h12 h13 h14 h15
  generalize ipValue [b0, b1, b2, b3, b4, b5, b6, b7, b8, b9, b10, b11, b12, b13, b14, b15] = V at hV ⊢
  clear b2 b3 b4 b5 b6 b7 b8 b9 b10 b11 b12 b13 b14 b15
  split_ifs with c1 c2 c3 <;> simp <;> omega

theorem cidrsLoop_As16 (a : Addr) :
    cidrsLoop cidrs a.As16 = some (inListedRanges a.As16, none) := by
  simp only [Addr.As16, bePutUint64, List.cons_append, List.nil_append]
  have m : ∀ x : Nat, x % 256 < 256 := fun x => Nat.mod_lt _ (by norm_num)
  generalize h0 : (a.hi >>> 56) % 256 = b0
  generalize h1 : (a.hi >>> 48) % 256 = b1
  generalize h2 : (a.hi >>> 40) % 256 = b2
  generalize h3 : (a.hi >>> 32) % 256 = b3
  generalize h4 : (a.hi >>> 24) % 256 = b4
  generalize h5 : (a.hi >>> 16) % 256 = b5
  generalize h6 : (a.hi >>> 8) % 256 = b6
  generalize h7 : a.hi % 256 = b7
  generalize h8 : (a.lo >>> 56) % 256 = b8
  generalize h9 : (a.lo >>> 48) % 256 = b9
  generalize h10 : (a.lo >>> 40) % 256 = b10
  generalize h11 : (a.lo >>> 32) % 256 = b11
  generalize h12 : (a.lo >>> 24) % 256 = b12
  generalize h13 : (a.lo >>> 16) % 256 = b13
  generalize h14 : (a.lo >>> 8) % 256 = b14
  generalize h15 : a.lo % 256 = b15
  have k0 : b0 < 256 := h0 ▸ m _
  have k1 : b1 < 256 := h1 ▸ m _
  have k2 : b2 < 256 := h2 ▸ m _
  have k3 : b3 < 256 := h3 ▸ m _
  have k4 : b4 < 256 := h4 ▸ m _
  have k5 : b5 < 256 := h5 ▸ m _
  have k6 : b6 < 256 := h6 ▸ m _
  have k7 : b7 < 256 := h7 ▸ m _
  have k8 : b8 < 256 := h8 ▸ m _
  have k9 : b9 < 256 := h9 ▸ m _
  have k10 : b10 < 256 := h10 ▸ m _
  have k11 : b11 < 256 := h11 ▸ m _
  have k12 : b12 < 256 := h12 ▸ m _
  have k13 : b13 < 256 := h13 ▸ m _
  have k14 : b14 < 256 := h14 ▸ m _
  have k15 : b15 < 256 := h15 ▸ m _
  by_cases hv : b0 = 0 ∧ b1 = 0 ∧ b2 = 0 ∧ b3 = 0 ∧ b4 = 0 ∧ b5 = 0 ∧ b6 = 0 ∧ b7 = 0 ∧
      b8 = 0 ∧ b9 = 0 ∧ b10 = 255 ∧ b11 = 255
  · obtain ⟨e0, e1, e2, e3, e4, e5, e6, e7, e8, e9, e10, e11⟩ := hv
    rw [e0, e1, e2, e3, e4, e5, e6, e7, e8, e9, e10, e11]
    exact cidrsLoop_v4 b12 b13 b14 b15 k12 k13 k14 k15
  · exact cidrsLoop_v6 b0 b1 b2 b3 b4 b5 b6 b7 b8 b9 b10 b11 b12 b13 b14 b15
      k0 k1 k2 k3 k4 k5 k6 k7 k8 k9 k10 k11 k12 k13 k14 k15 hv

theorem ParseIP_eq_some {s : Str} {ip : List Nat} (h : ParseIP s = some ip) :
    ∃ a : Addr, ParseAddr s = some a ∧ a.Zone = [] ∧ ip = a.As16 := by
  unfold ParseIP at h
  split at h
  · exact absurd h (by simp)
  · rename_i a ha
    split at h
    · exact absurd h (by simp)
    · rename_i hz
      refine ⟨a, ha, not_not.1 hz, ?_⟩
      exact (Option.some.inj h).symm

theorem isPrivateAddress_of_parse {s : Str} {ip : List Nat} (h : ParseIP s = some ip) :
    isPrivateAddress s = some (inListedRanges ip, none) := by
  obtain ⟨a, -, -, rfl⟩ := ParseIP_eq_some h
  simp only [isPrivateAddress, h]
  exact cidrsLoop_As16 a

theorem isPrivateAddress_of_not_parse {s : Str} (h : ParseIP s = none) :
    isPrivateAddress s = some (false, some "address is not valid".toList) := by
  simp only [isPrivateAddress, h]

theorem isPrivateAddress_total (s : Str) :
    ∃ b e, isPrivateAddress s = some (b, e) := by
  cases h : ParseIP s with
  | none => exact ⟨_, _, isPrivateAddress_of_not_parse h⟩
  | some ip => exact ⟨_, _, isPrivateAddress_of_parse h⟩

/-! ## Facts about splitting, trimming and the chain scan -/

theorem Split_ne_nil (s : Str) (sep : Char) : Split s sep ≠ [] := by
  induction s with
  | nil => simp [Split]
  | cons c s ih =>
    simp only [Split]
    split
    · simp
    · split <;> simp

theorem Split_append_sep (e v : Str) (sep : Char) (h : sep ∉ e) :
    Split (e ++ sep :: v) sep = e :: Split v sep := by
  induction e with
  | nil => simp [Split]
  | cons c e ih =>
    have hc : c ≠ sep := fun hc => h (hc ▸ List.mem_cons_self _ _)
    have he : sep ∉ e := fun he => h (List.mem_cons_of_mem _ he)
    have e1 : Split (c :: (e ++ sep :: v)) sep = (c :: e) :: Split v sep := by
      simp only [Split, if_neg hc, ih he]
    simpa using e1

theorem Split_mem (s : Str) (sep : Char) : ∀ x ∈ Split s sep, ∀ c ∈ x, c ∈ s ∧ c ≠ sep := by
  induction s with
  | nil => simp [Split]
  | cons a s ih =>
    intro x hx c hc
    simp only [Split] at hx
    split at hx
    · rcases List.mem_cons.1 hx with rfl | hx
      · simp at hc
      · exact ⟨List.mem_cons_of_mem _ (ih x hx c hc).1, (ih x hx c hc).2⟩
    · rename_i hne
      split at hx
      · rename_i heq
        exact absurd heq (Split_ne_nil s sep)
      · rename_i y ys heq
        rcases List.mem_cons.1 hx with rfl | hx
        · rcases List.mem_cons.1 hc with rfl | hc
          · exact ⟨List.mem_cons_self _ _, hne⟩
          · have := ih y (heq ▸ List.mem_cons_self _ _) c hc
            exact ⟨List.mem_cons_of_mem _ this.1, this.2⟩
        · have := ih x (heq ▸ List.mem_cons_of_mem _ hx) c hc
          exact ⟨List.mem_cons_of_mem _ this.1, this.2⟩

theorem TrimSpace_eq_nil (s : Str) (h : ∀ c ∈ s, isSpace c = true) : TrimSpace s = [] := by
  have : s.dropWhile isSpace = [] := by
    rw [List.dropWhile_eq_nil_iff]
    exact h
  simp [TrimSpace, this]

theorem TrimSpace_head (s : Str) (c : Char) (h : (TrimSpace s).head? = some c) :
    isSpace c = false := by
  have hp : TrimSpace s <+: s.dropWhile isSpace := List.rdropWhile_prefix _ _
  obtain ⟨t, ht⟩ := hp
  have hd := List.head?_dropWhile_not isSpace s
  rw [← ht] at hd
  cases hT : TrimSpace s with
  | nil => rw [hT] at h; simp at h
  | cons a l =>
    rw [hT] at h hd
    simp only [List.cons_append, List.head?_cons, Option.some.injEq] at h hd
    rw [← h]
    exact hd

theorem TrimSpace_getLast (s : Str) (c : Char) (h : (TrimSpace s).getLast? = some c) :
    isSpace c = false := by
  have hne : TrimSpace s ≠ [] := by
    intro hn
    rw [hn] at h
    simp at h
  have hl := List.rdropWhile_last_not isSpace (s.dropWhile isSpace) hne
  rw [List.getLast?_eq_getLast _ hne] at h
  have hc : (TrimSpace s).getLast hne = c := Option.some.inj h
  rw [← hc]
  simpa [TrimSpace] using hl

theorem not_qualifies_iff (a : Str) :
    qualifies a = false ↔ (isPrivateAddress a = some (true, none) ∨ ParseIP a = none) := by
  unfold qualifies
  cases h : ParseIP a with
  | none => simp [isPrivateAddress_of_not_parse h]
  | some ip =>
    rw [isPrivateAddress_of_parse h]
    cases inListedRanges ip <;> simp

theorem chainLoop_eq (l : List Str) :
    chainLoop l = some ((l.map TrimSpace).find? qualifies) := by
  induction l with
  | nil => simp [chainLoop]
  | cons a l ih =>
    obtain ⟨b, e, hbe⟩ := isPrivateAddress_total (TrimSpace a)
    simp only [chainLoop, hbe, List.map_cons, List.find?_cons, qualifies]
    cases b <;> cases e <;> simp [ih, qualifies]

theorem FromRequest_of_header (xRealIP xForwardedFor : Option Str) (RemoteAddr : Str)
    (h : xRealIP ≠ none ∨ xForwardedFor ≠ none) :
    FromRequest xRealIP xForwardedFor RemoteAddr =
      some (((forwardingChain xForwardedFor).find? qualifies).getD (stringOf xRealIP)) := by
  have hn : ¬(xRealIP = none ∧ xForwardedFor = none) := by tauto
  simp only [FromRequest, if_neg hn, chainLoop_eq, forwardingChain]
  cases ((Split (stringOf xForwardedFor) ',').map TrimSpace).find? qualifies <;> rfl

/-! ## Facts about the parser: the characters of an accepted literal -/

theorem isAddrChar_of_isDigit {c : Char} (h : isDigit c = true) : isAddrChar c = true := by
  simp [isAddrChar, hexVal, h]

theorem parseIPv4FieldsLoop_chars (s : Str) :
    ∀ (prev : Option Char) (val pos digLen : Nat) (fields r : List Nat),
      parseIPv4FieldsLoop s prev val pos digLen fields = some r →
      ∀ c ∈ s, isAddrChar c = true := by
  induction s with
  | nil => intro _ _ _ _ _ _ _ c hc; simp at hc
  | cons a s ih =>
    intro prev val pos digLen fields r h c hc
    unfold parseIPv4FieldsLoop at h
    split at h
    · rename_i hd
      split at h
      · exact absurd h (by simp)
      · dsimp only at h
        split at h
        · exact absurd h (by simp)
        · rcases List.mem_cons.1 hc with rfl | hc
          · exact isAddrChar_of_isDigit hd
          · exact ih _ _ _ _ _ _ h c hc
    · split at h
      · rename_i hdot
        split at h
        · exact absurd h (by simp)
        · split at h
          · exact absurd h (by simp)
          · rcases List.mem_cons.1 hc with rfl | hc
            · simp [isAddrChar, hdot]
            · exact ih _ _ _ _ _ _ h c hc
      · exact absurd h (by simp)

theorem parseHexGroup_spec (s : Str) :
    ∀ (off acc off1 acc1 : Nat) (rest : Str),
      parseHexGroup s off acc = some (off1, acc1, rest) →
      ∃ ds, s = ds ++ rest ∧ (∀ c ∈ ds, isAddrChar c = true) ∧ off1 = off + ds.length := by
  induction s with
  | nil =>
    intro off acc off1 acc1 rest h
    simp only [parseHexGroup, Option.some.injEq, Prod.mk.injEq] at h
    obtain ⟨rfl, -, rfl⟩ := h
    exact ⟨[], by simp, by simp, by simp⟩
  | cons a s ih =>
    intro off acc off1 acc1 rest h
    unfold parseHexGroup at h
    split at h
    · simp only [Option.some.injEq, Prod.mk.injEq] at h
      obtain ⟨rfl, -, rfl⟩ := h
      exact ⟨[], by simp, by simp, by simp⟩
    · rename_i d hd
      split at h
      · exact absurd h (by simp)
      · dsimp only at h
        split at h
        · exact absurd h (by simp)
        · obtain ⟨ds, hs, hall, hoff⟩ := ih _ _ _ _ _ h
          refine ⟨a :: ds, by simp [hs], ?_, by simp [hoff]; omega⟩
          intro c hc
          rcases List.mem_cons.1 hc with rfl | hc
          · simp [isAddrChar, hd]
          · exact hall c hc

theorem parseIPv6Loop_chars (k : Nat) :
    ∀ (s : Str) (ip : List Nat) (ellipsis : Option Nat) (st : V6State),
      parseIPv6Loop k s ip ellipsis = some st → st.s = [] → ∀ c ∈ s, isAddrChar c = true := by
  induction k with
  | zero =>
    intro s ip ellipsis st h hs c hc
    simp only [parseIPv6Loop, Option.some.injEq] at h
    subst h
    simp only at hs
    subst hs
    simp at hc
  | succ k ih =>
    intro s ip ellipsis st h hs c hc
    unfold parseIPv6Loop at h
    dsimp only at h
    cases hgrp : parseHexGroup s 0 0 with
    | none => rw [hgrp] at h; exact absurd h (by simp)
    | some r =>
      obtain ⟨off, acc, rest⟩ := r
      rw [hgrp] at h
      dsimp only at h
      obtain ⟨ds, hds, hall, -⟩ := parseHexGroup_spec s _ _ _ _ _ hgrp
      by_cases hoff : off = 0
      · rw [if_pos hoff] at h; exact absurd h (by simp)
      rw [if_neg hoff] at h
      cases rest with
      | nil =>
        rw [hds] at hc
        exact hall c (by simpa using hc)
      | cons c0 rest1 =>
        by_cases hdot : c0 = '.'
        · rw [if_pos (by simp [hdot])] at h
          split at h
          · exact absurd h (by simp)
          · split at h
            · exact absurd h (by simp)
            · cases hf : parseIPv4Fields s (List.take 4 (List.drop (16 - 2 * (k + 1)) ip)) with
              | none => rw [hf] at h; exact absurd h (by simp)
              | some fields => exact parseIPv4FieldsLoop_chars s _ _ _ _ _ _ hf c hc
        · rw [if_neg (by simp [hdot])] at h
          dsimp only at h
          by_cases hc0 : c0 = ':'
          swap
          · rw [if_pos hc0] at h; exact absurd h (by simp)
          rw [if_neg (not_not.2 hc0)] at h
          have hcolon : isAddrChar ':' = true := by decide
          cases rest1 with
          | nil => exact absurd h (by simp)
          | cons c1 rest2 =>
            dsimp only at h
            rw [hds, hc0] at hc
            by_cases hc1 : c1 = ':'
            · rw [if_pos hc1] at h
              by_cases he : ellipsis.isSome = true
              · rw [if_pos he] at h; exact absurd h (by simp)
              rw [if_neg he] at h
              cases rest2 with
              | nil =>
                rw [hc1] at hc
                rcases List.mem_append.1 hc with hc | hc
                · exact hall c hc
                · simp only [List.mem_cons, List.mem_singleton, List.not_mem_nil, or_false,
                    or_self] at hc
                  rw [hc]; exact hcolon
              | cons c2 rest3 =>
                dsimp only at h
                rcases List.mem_append.1 hc with hc | hc
                · exact hall c hc
                · rcases List.mem_cons.1 hc with rfl | hc
                  · exact hcolon
                  · rcases List.mem_cons.1 hc with rfl | hc
                    · rw [hc1]; exact hcolon
                    · exact ih _ _ _ _ h hs c hc
            · rw [if_neg hc1] at h
              rcases List.mem_append.1 hc with hc | hc
              · exact hall c hc
              · rcases List.mem_cons.1 hc with rfl | hc
                · exact hcolon
                · exact ih _ _ _ _ h hs c hc

theorem Zone_WithZone_AddrFrom16 (b : List Nat) (zone : Str) :
    ((AddrFrom16 b).WithZone zone).Zone = zone := by
  simp [AddrFrom16, Addr.WithZone, Addr.Zone]

theorem parseIPv6Groups_spec (s : Str) (ellipsis : Option Nat) (zone : Str) (a : Addr)
    (h : parseIPv6Groups s ellipsis zone = some a) :
    (∀ c ∈ s, isAddrChar c = true) ∧ a.Zone = zone := by
  unfold parseIPv6Groups at h
  cases hl : parseIPv6Loop 8 s (List.replicate 16 0) ellipsis with
  | none => rw [hl] at h; exact absurd h (by simp)
  | some st =>
    rw [hl] at h
    dsimp only at h
    by_cases hs : st.s = []
    swap
    · rw [if_pos hs] at h; exact absurd h (by simp)
    rw [if_neg (not_not.2 hs)] at h
    refine ⟨parseIPv6Loop_chars 8 s _ _ st hl hs, ?_⟩
    split at h
    · split at h
      · exact absurd h (by simp)
      · rw [← Option.some.inj h]; exact Zone_WithZone_AddrFrom16 _ _
    · split at h
      · exact absurd h (by simp)
      · rw [← Option.some.inj h]; exact Zone_WithZone_AddrFrom16 _ _

theorem parseIPv6NoZone_spec (s zone : Str) (a : Addr)
    (h : parseIPv6NoZone s zone = some a) :
    (∀ c ∈ s, isAddrChar c = true) ∧ a.Zone = zone := by
  have hcolon : isAddrChar ':' = true := by decide
  unfold parseIPv6NoZone at h
  split at h
  · refine ⟨?_, ?_⟩
    · intro c hc
      simp only [List.mem_cons, List.mem_singleton, List.not_mem_nil, or_false, or_self] at hc
      rw [hc]; exact hcolon
    · rw [← Option.some.inj h]; simp [Addr.WithZone, Addr.Zone]
  · obtain ⟨hall, hz⟩ := parseIPv6Groups_spec _ _ _ _ h
    refine ⟨?_, hz⟩
    intro c hc
    rcases List.mem_cons.1 hc with rfl | hc
    · exact hcolon
    · rcases List.mem_cons.1 hc with rfl | hc
      · exact hcolon
      · exact hall c hc
  · exact parseIPv6Groups_spec _ _ _ _ h

theorem parseIPv6_chars (input : Str) (a : Addr) (h : parseIPv6 input = some a)
    (hz : a.Zone = []) : ∀ c ∈ input, isAddrChar c = true := by
  unfold parseIPv6 at h
  split at h
  · exact (parseIPv6NoZone_spec _ _ _ h).1
  · split at h
    · exact absurd h (by simp)
    · rename_i hne
      have := (parseIPv6NoZone_spec _ _ _ h).2
      rw [hz] at this
      exact absurd this.symm hne

theorem ParseAddr_chars (s : Str) (a : Addr) (h : ParseAddr s = some a) (hz : a.Zone = []) :
    ∀ c ∈ s, isAddrChar c = true := by
  unfold ParseAddr at h
  split at h
  · unfold parseIPv4 parseIPv4Fields at h
    cases hf : parseIPv4FieldsLoop s none 0 0 0 [0, 0, 0, 0] with
    | none => rw [hf] at h; exact absurd h (by simp)
    | some fields => exact parseIPv4FieldsLoop_chars s _ _ _ _ _ _ hf
  · exact parseIPv6_chars s a h hz
  · exact absurd h (by simp)

theorem ParseIP_chars {s : Str} {ip : List Nat} (h : ParseIP s = some ip) :
    ∀ c ∈ s, isAddrChar c = true := by
  obtain ⟨a, ha, hz, -⟩ := ParseIP_eq_some h
  exact ParseAddr_chars s a ha hz

/-! ## Facts about `SplitHostPort` -/

theorem indexOf?_append_cons (l r : Str) (c : Char) (h : c ∉ l) :
    (l ++ c :: r).indexOf? c = some l.length := by
  induction l with
  | nil => simp [List.indexOf?_cons]
  | cons a l ih =>
    have ha : a ≠ c := fun ha => h (ha ▸ List.mem_cons_self _ _)
    have hl : c ∉ l := fun hl => h (List.mem_cons_of_mem _ hl)
    simp [List.indexOf?_cons, ha, ih hl]

theorem indexOf?_lt (l : Str) (c : Char) (e : Nat) (h : l.indexOf? c = some e) :
    e < l.length := by
  induction l generalizing e with
  | nil => simp at h
  | cons a l ih =>
    rw [List.indexOf?_cons] at h
    split at h
    · simp only [Option.some.injEq] at h
      subst h
      simp
    · cases hl : l.indexOf? c with
      | none => rw [hl] at h; simp at h
      | some e1 =>
        rw [hl] at h
        simp only [Option.map_some', Option.some.injEq] at h
        subst h
        have := ih e1 hl
        simp only [List.length_cons]
        omega

theorem lastIndex_append_cons (a port : Str) (c : Char) (h : c ∉ port) :
    ((a ++ c :: port).reverse.indexOf? c).map (fun r => (a ++ c :: port).length - 1 - r) =
      some a.length := by
  have hr : (a ++ c :: port).reverse = port.reverse ++ c :: a.reverse := by simp
  rw [hr, indexOf?_append_cons _ _ _ (by simpa using h)]
  simp only [Option.map_some', List.length_reverse, List.length_append, List.length_cons,
    Option.some.injEq]
  omega

theorem SplitHostPort_plain (host port : Str)
    (hh : ':' ∉ host ∧ '[' ∉ host ∧ ']' ∉ host) (hp : ':' ∉ port ∧ '[' ∉ port ∧ ']' ∉ port) :
    SplitHostPort (host ++ ':' :: port) = some (host, port, none) := by
  unfold SplitHostPort
  simp only [lastIndex_append_cons host port ':' hp.1]
  have hl : '[' ∉ host ++ ':' :: port := by
    simp only [List.mem_append, List.mem_cons, not_or]
    exact ⟨hh.2.1, by decide, hp.2.1⟩
  have hr : ']' ∉ host ++ ':' :: port := by
    simp only [List.mem_append, List.mem_cons, not_or]
    exact ⟨hh.2.2, by decide, hp.2.2⟩
  have htake : (host ++ ':' :: port).take host.length = host := by simp
  have hdrop : (host ++ ':' :: port).drop (host.length + 1) = port := by
    rw [show host ++ ':' :: port = (host ++ [':']) ++ port by simp]
    exact List.drop_left' (by simp)
  have hcolon := hh.1
  revert hl hr htake hdrop
  cases hhp : host ++ ':' :: port with
  | nil => simp at hhp
  | cons c0 t =>
    intro hl hr htake hdrop
    have hc0 : c0 ≠ '[' := fun hc => hl (hc ▸ List.mem_cons_self _ _)
    simp only [if_neg hc0, htake, hdrop, List.drop_zero, hl, hr, if_false, hcolon]

theorem SplitHostPort_bracketed (host port : Str)
    (hh : '[' ∉ host ∧ ']' ∉ host) (hp : ':' ∉ port ∧ '[' ∉ port ∧ ']' ∉ port) :
    SplitHostPort ('[' :: host ++ ']' :: ':' :: port) = some (host, port, none) := by
  have hform : '[' :: host ++ ']' :: ':' :: port = ('[' :: host ++ [']']) ++ ':' :: port := by
    simp
  have hidx : ('[' :: host ++ ']' :: ':' :: port).indexOf? ']' = some (host.length + 1) := by
    have := indexOf?_append_cons ('[' :: host) (':' :: port) ']'
      (by simp only [List.mem_cons, not_or]; exact ⟨by decide, hh.2⟩)
    simpa using this
  have hlast := lastIndex_append_cons ('[' :: host ++ [']']) port ':' hp.1
  rw [← hform] at hlast
  unfold SplitHostPort
  simp only [hlast, hidx]
  have hl : '[' ∉ host ++ ']' :: ':' :: port := by
    simp only [List.mem_append, List.mem_cons, not_or]
    exact ⟨hh.1, by decide, by decide, hp.2.1⟩
  have hr : ']' ∉ port := hp.2.2
  simp [hl, hr]

theorem SplitHostPort_total (hostport : Str) : ∃ r, SplitHostPort hostport = some r := by
  unfold SplitHostPort
  dsimp only
  cases hi : (hostport.reverse.indexOf? ':').map (fun r => hostport.length - 1 - r) with
  | none => exact ⟨_, rfl⟩
  | some i =>
    cases hostport with
    | nil => simp at hi
    | cons c0 t =>
      dsimp only
      split
      · cases he : (c0 :: t).indexOf? ']' with
        | none => exact ⟨_, rfl⟩
        | some e =>
          dsimp only
          have hlt := indexOf?_lt _ _ _ he
          split
          · exact ⟨_, rfl⟩
          · split
            · split
              · exact ⟨_, rfl⟩
              · split <;> exact ⟨_, rfl⟩
            · rename_i hne _
              have hlt2 : e + 1 < (c0 :: t).length := by omega
              rw [List.get?_eq_get hlt2]
              dsimp only
              split <;> exact ⟨_, rfl⟩
      · split
        · exact ⟨_, rfl⟩
        · split
          · exact ⟨_, rfl⟩
          · split <;> exact ⟨_, rfl⟩

/-! ## Classification -/

/-- C5: for every string that parses as an address lying inside one of the eight listed
ranges (boundaries included), `isPrivateAddress` returns `(true, nil)`. -/
theorem isPrivateAddress_inside (address : Str) (ip : List Nat) (b : Block)
    (hparse : ParseIP address = some ip) (hb : b ∈ listedBlocks) (hin : inBlock ip b = true) :
    isPrivateAddress address = some (true, none) := by
  rw [isPrivateAddress_of_parse hparse]
  have : inListedRanges ip = true := List.any_eq_true.2 ⟨b, hb, hin⟩
  rw [this]

theorem isPrivateAddress_inside_witness :
    isPrivateAddress "172.31.255.255".toList = some (true, none) ∧
      isPrivateAddress "172.16.0.0".toList = some (true, none) ∧
      isPrivateAddress "127.255.255.255".toList = some (true, none) ∧
      isPrivateAddress "febf:ffff:ffff:ffff:ffff:ffff:ffff:ffff".toList = some (true, none) :=
  ⟨isPrivateAddress_inside "172.31.255.255".toList
      [0, 0, 0, 0, 0, 0, 0, 0, 0, 0, 255, 255, 172, 31, 255, 255]
      ⟨32, 172 * 2 ^ 24 + 16 * 2 ^ 16, 12⟩ (by decide) (by decide) (by decide),
   isPrivateAddress_inside "172.16.0.0".toList
      [0, 0, 0, 0, 0, 0, 0, 0, 0, 0, 255, 255, 172, 16, 0, 0]
      ⟨32, 172 * 2 ^ 24 + 16 * 2 ^ 16, 12⟩ (by decide) (by decide) (by decide),
   isPrivateAddress_inside "127.255.255.255".toList
      [0, 0, 0, 0, 0, 0, 0, 0, 0, 0, 255, 255, 127, 255, 255, 255]
      ⟨32, 127 * 2 ^ 24, 8⟩ (by decide) (by decide) (by decide),
   isPrivateAddress_inside "febf:ffff:ffff:ffff:ffff:ffff:ffff:ffff".toList
      [254, 191, 255, 255, 255, 255, 255, 255, 255, 255, 255, 255, 255, 255, 255, 255]
      ⟨128, 0xfe80 * 2 ^ 112, 10⟩ (by decide) (by decide) (by decide)⟩

/-- C6: for every string that parses as an address lying in none of the eight listed
ranges, `isPrivateAddress` returns `(false, nil)`. -/
theorem isPrivateAddress_outside (address : Str) (ip : List Nat)
    (hparse : ParseIP address = some ip) (hout : ∀ b ∈ listedBlocks, inBlock ip b = false) :
    isPrivateAddress address = some (false, none) := by
  rw [isPrivateAddress_of_parse hparse]
  have : inListedRanges ip = false := by
    rw [inListedRanges, List.any_eq_false]
    intro b hb
    simp [hout b hb]
  rw [this]

theorem isPrivateAddress_outside_witness :
    isPrivateAddress "172.32.0.0".toList = some (false, none) ∧
      isPrivateAddress "8.8.8.8".toList = some (false, none) ∧
      isPrivateAddress "2001:4860:4860::8888".toList = some (false, none) ∧
      isPrivateAddress "fec0::".toList = some (false, none) ∧
      isPrivateAddress "::2".toList = some (false, none) :=
  ⟨isPrivateAddress_outside "172.32.0.0".toList
      [0, 0, 0, 0, 0, 0, 0, 0, 0, 0, 255, 255, 172, 32, 0, 0] (by decide) (by decide),
   isPrivateAddress_outside "8.8.8.8".toList
      [0, 0, 0, 0, 0, 0, 0, 0, 0, 0, 255, 255, 8, 8, 8, 8] (by decide) (by decide),
   isPrivateAddress_outside "2001:4860:4860::8888".toList
      [32, 1, 72, 96, 72, 96, 0, 0, 0, 0, 0, 0, 0, 0, 136, 136] (by decide) (by decide),
   isPrivateAddress_outside "fec0::".toList
      [254, 192, 0, 0, 0, 0, 0, 0, 0, 0, 0, 0, 0, 0, 0, 0] (by decide) (by decide),
   isPrivateAddress_outside "::2".toList
      [0, 0, 0, 0, 0, 0, 0, 0, 0, 0, 0, 0, 0, 0, 0, 2] (by decide) (by decide)⟩

/-- C7: `isPrivateAddress` returns `false` with the error "address is not valid" for every
string that does not parse, and a nil error for every string that parses; so the error is
non-nil exactly when parsing fails.  The strings `not-an-ip` and the empty string do not
parse. -/
theorem isPrivateAddress_error_iff (address : Str) :
    (ParseIP address = none →
        isPrivateAddress address = some (false, some "address is not valid".toList)) ∧
      (∀ ip, ParseIP address = some ip → ∃ b, isPrivateAddress address = some (b, none)) ∧
      (∃ b e, isPrivateAddress address = some (b, e) ∧ (e ≠ none ↔ ParseIP address = none)) ∧
      ParseIP "not-an-ip".toList = none ∧ ParseIP [] = none := by
  refine ⟨isPrivateAddress_of_not_parse, fun ip h => ⟨_, isPrivateAddress_of_parse h⟩, ?_,
    by decide, by decide⟩
  cases h : ParseIP address with
  | none => exact ⟨_, _, isPrivateAddress_of_not_parse h, by simp⟩
  | some ip => exact ⟨_, _, isPrivateAddress_of_parse h, by simp⟩

theorem isPrivateAddress_error_iff_witness :
    isPrivateAddress "not-an-ip".toList = some (false, some "address is not valid".toList) ∧
      isPrivateAddress [] = some (false, some "address is not valid".toList) ∧
      ∃ b, isPrivateAddress "8.8.8.8".toList = some (b, none) :=
  ⟨(isPrivateAddress_error_iff "not-an-ip".toList).1 (by decide),
   (isPrivateAddress_error_iff []).1 (by decide),
   (isPrivateAddress_error_iff "8.8.8.8".toList).2.1
      [0, 0, 0, 0, 0, 0, 0, 0, 0, 0, 255, 255, 8, 8, 8, 8] (by decide)⟩

/-! ## Resolution -/

/-- C1: when at least one of the two headers is present and the forwarding chain has an
element classified `(false, nil)`, `FromRequest` returns the leftmost such element, in its
trimmed form (neither its first nor its last character is white space), whatever the
`X-Real-Ip` value and the remote address; every element to its left is private or does
not parse. -/
theorem FromRequest_first_public (xRealIP xForwardedFor : Option Str) (RemoteAddr : Str)
    (hpresent : xRealIP ≠ none ∨ xForwardedFor ≠ none)
    (hex : ∃ a ∈ forwardingChain xForwardedFor, isPrivateAddress a = some (false, none)) :
    ∃ pre a post, forwardingChain xForwardedFor = pre ++ a :: post ∧
      isPrivateAddress a = some (false, none) ∧
      (∀ x ∈ pre, isPrivateAddress x = some (true, none) ∨ ParseIP x = none) ∧
      FromRequest xRealIP xForwardedFor RemoteAddr = some a ∧
      (∀ c, a.head? = some c → isSpace c = false) ∧
      (∀ c, a.getLast? = some c → isSpace c = false) := by
  rw [FromRequest_of_header _ _ _ hpresent]
  have hsome : ((forwardingChain xForwardedFor).find? qualifies).isSome := by
    rw [List.find?_isSome]
    obtain ⟨a, ha, hq⟩ := hex
    exact ⟨a, ha, by simp [qualifies, hq]⟩
  obtain ⟨a, hfind⟩ := Option.isSome_iff_exists.1 hsome
  obtain ⟨hq, pre, post, hsplit, hpre⟩ := List.find?_eq_some.1 hfind
  have hmem : a ∈ (Split (stringOf xForwardedFor) ',').map TrimSpace := by
    have : a ∈ forwardingChain xForwardedFor := by rw [hsplit]; simp
    exact this
  obtain ⟨raw, -, rfl⟩ := List.mem_map.1 hmem
  refine ⟨pre, TrimSpace raw, post, hsplit, by simpa [qualifies] using hq, ?_, by simp [hfind],
    TrimSpace_head raw, TrimSpace_getLast raw⟩
  intro x hx
  have := hpre x hx
  exact (not_qualifies_iff x).1 (by simpa using this)

theorem FromRequest_first_public_witness :
    ((none : Option Str) ≠ none ∨
        some "10.0.0.1, 203.0.113.9, 8.8.8.8".toList ≠ (none : Option Str)) ∧
      (∃ a ∈ forwardingChain (some "10.0.0.1, 203.0.113.9, 8.8.8.8".toList),
        isPrivateAddress a = some (false, none)) ∧
      (∃ pre a post,
        forwardingChain (some "10.0.0.1, 203.0.113.9, 8.8.8.8".toList) = pre ++ a :: post ∧
        isPrivateAddress a = some (false, none) ∧
        (∀ x ∈ pre, isPrivateAddress x = some (true, none) ∨ ParseIP x = none) ∧
        FromRequest none (some "10.0.0.1, 203.0.113.9, 8.8.8.8".toList) "1.2.3.4:80".toList
          = some a ∧
        (∀ c, a.head? = some c → isSpace c = false) ∧
        (∀ c, a.getLast? = some c → isSpace c = false)) ∧
      FromRequest none (some "10.0.0.1, 203.0.113.9, 8.8.8.8".toList) "1.2.3.4:80".toList
        = some "203.0.113.9".toList :=
  ⟨Or.inr (by decide), ⟨"203.0.113.9".toList, by decide, by decide⟩,
   FromRequest_first_public none (some "10.0.0.1, 203.0.113.9, 8.8.8.8".toList)
     "1.2.3.4:80".toList (Or.inr (by decide)) ⟨"203.0.113.9".toList, by decide, by decide⟩,
   by decide⟩

/-- C2: when at least one of the two headers is present and every element of the forwarding
chain is private or does not parse, `FromRequest` returns the `X-Real-Ip` value verbatim
(the empty string when the header is absent), whatever that value and whatever the remote
address. -/
theorem FromRequest_fallback (xRealIP xForwardedFor : Option Str) (RemoteAddr : Str)
    (hpresent : xRealIP ≠ none ∨ xForwardedFor ≠ none)
    (hnone : ∀ a ∈ forwardingChain xForwardedFor,
      isPrivateAddress a = some (true, none) ∨ ParseIP a = none) :
    FromRequest xRealIP xForwardedFor RemoteAddr = some (stringOf xRealIP) := by
  rw [FromRequest_of_header _ _ _ hpresent]
  have : (forwardingChain xForwardedFor).find? qualifies = none := by
    rw [List.find?_eq_none]
    intro x hx
    have := (not_qualifies_iff x).2 (hnone x hx)
    simp [this]
  rw [this]
  rfl

theorem FromRequest_fallback_witness :
    FromRequest (some "198.51.100.7".toList) (some "10.0.0.1, 192.168.1.1".toList)
        "1.2.3.4:80".toList = some "198.51.100.7".toList ∧
      FromRequest (some "not an ip".toList) (some "10.0.0.1,junk".toList)
        "1.2.3.4:80".toList = some "not an ip".toList :=
  ⟨FromRequest_fallback (some "198.51.100.7".toList) (some "10.0.0.1, 192.168.1.1".toList)
      "1.2.3.4:80".toList (Or.inl (by decide)) (by decide),
   FromRequest_fallback (some "not an ip".toList) (some "10.0.0.1,junk".toList)
      "1.2.3.4:80".toList (Or.inl (by decide)) (by decide)⟩

/-- C4: when both headers are absent and the remote address contains no colon,
`FromRequest` returns the remote address unchanged, for every such string. -/
theorem FromRequest_no_colon (RemoteAddr : Str) (h : ':' ∉ RemoteAddr) :
    FromRequest none none RemoteAddr = some RemoteAddr := by
  simp [FromRequest, ContainsRune, h]

theorem FromRequest_no_colon_witness :
    FromRequest none none "203.0.113.5".toList = some "203.0.113.5".toList ∧
      FromRequest none none [] = some [] ∧
      FromRequest none none "localhost".toList = some "localhost".toList :=
  ⟨FromRequest_no_colon "203.0.113.5".toList (by decide), FromRequest_no_colon [] (by decide),
   FromRequest_no_colon "localhost".toList (by decide)⟩

/-- C8: a chain entry that is private or does not parse never blocks the rest of the chain.
For every present `X-Forwarded-For` value `v` and every entry `e` (a chain element, hence
without a comma) whose trimmed form is private or unparseable, the request with
`X-Forwarded-For = e ++ "," ++ v` resolves as the request with `X-Forwarded-For = v`. -/
theorem FromRequest_skip_entry (xRealIP : Option Str) (e v RemoteAddr : Str)
    (hentry : ',' ∉ e)
    (hbad : isPrivateAddress (TrimSpace e) = some (true, none) ∨ ParseIP (TrimSpace e) = none) :
    FromRequest xRealIP (some (e ++ ',' :: v)) RemoteAddr =
      FromRequest xRealIP (some v) RemoteAddr := by
  rw [FromRequest_of_header _ _ _ (Or.inr (by simp)), FromRequest_of_header _ _ _ (Or.inr (by simp))]
  have hq := (not_qualifies_iff (TrimSpace e)).2 hbad
  simp only [forwardingChain, stringOf, Option.getD_some, Split_append_sep e v ',' hentry,
    List.map_cons, List.find?_cons, hq]

theorem FromRequest_skip_entry_witness :
    FromRequest (some "198.51.100.7".toList) (some ("bogus".toList ++ ',' :: " 8.8.8.8".toList))
        "1.2.3.4:80".toList =
      FromRequest (some "198.51.100.7".toList) (some " 8.8.8.8".toList) "1.2.3.4:80".toList ∧
    FromRequest none (some (" 10.1.2.3 ".toList ++ ',' :: "x,9.9.9.9".toList)) [] =
      FromRequest none (some "x,9.9.9.9".toList) [] :=
  ⟨FromRequest_skip_entry (some "198.51.100.7".toList) "bogus".toList " 8.8.8.8".toList
      "1.2.3.4:80".toList (by decide) (Or.inr (by decide)),
   FromRequest_skip_entry none " 10.1.2.3 ".toList "x,9.9.9.9".toList [] (by decide)
      (Or.inl (by decide))⟩

/-- C9: when `X-Real-Ip` is present (in particular when it is non-empty) and
`X-Forwarded-For` is absent, empty, or made only of white space and commas, `FromRequest`
returns the `X-Real-Ip` value. -/
theorem FromRequest_empty_chain (r : Str) (xForwardedFor : Option Str) (RemoteAddr : Str)
    (hblank : ∀ c ∈ stringOf xForwardedFor, isSpace c = true ∨ c = ',') :
    FromRequest (some r) xForwardedFor RemoteAddr = some r := by
  have hpresent : (some r : Option Str) ≠ none ∨ xForwardedFor ≠ none := Or.inl (by simp)
  rw [FromRequest_fallback (some r) xForwardedFor RemoteAddr hpresent]
  · rfl
  · intro a ha
    obtain ⟨raw, hraw, rfl⟩ := List.mem_map.1 ha
    right
    have hnil : TrimSpace raw = [] := by
      apply TrimSpace_eq_nil
      intro c hc
      have hm := Split_mem _ _ raw hraw c hc
      rcases hblank c hm.1 with hs | hs
      · exact hs
      · exact absurd hs hm.2
    rw [hnil]
    decide

theorem FromRequest_empty_chain_witness :
    FromRequest (some "198.51.100.7".toList) (some []) "1.2.3.4:80".toList
        = some "198.51.100.7".toList ∧
      FromRequest (some "198.51.100.7".toList) none "1.2.3.4:80".toList
        = some "198.51.100.7".toList ∧
      FromRequest (some "198.51.100.7".toList) (some " , \t,, ".toList) "1.2.3.4:80".toList
        = some "198.51.100.7".toList :=
  ⟨FromRequest_empty_chain "198.51.100.7".toList (some []) "1.2.3.4:80".toList (by decide),
   FromRequest_empty_chain "198.51.100.7".toList none "1.2.3.4:80".toList (by decide),
   FromRequest_empty_chain "198.51.100.7".toList (some " , \t,, ".toList) "1.2.3.4:80".toList
      (by decide)⟩

/-- C3: when both headers are absent and the remote address is `host:port`, with no colon
and no square bracket in host and port, or `[host]:port` with `host` an IP address literal
(as accepted by `net.ParseIP`, in particular any IPv6 literal), `FromRequest` returns
exactly `host`.  No condition on `host` being public: the private ranges play no part. -/
theorem FromRequest_host_port (host port : Str)
    (hport : ':' ∉ port ∧ '[' ∉ port ∧ ']' ∉ port) :
    ((':' ∉ host ∧ '[' ∉ host ∧ ']' ∉ host) →
        FromRequest none none (host ++ ':' :: port) = some host) ∧
      (∀ ip, ParseIP host = some ip →
        FromRequest none none ('[' :: host ++ ']' :: ':' :: port) = some host) := by
  constructor
  · intro hhost
    have hc : ContainsRune (host ++ ':' :: port) ':' = true := by simp [ContainsRune]
    simp only [FromRequest, and_self, if_true, hc, SplitHostPort_plain host port hhost hport]
  · intro ip hip
    have hchars := ParseIP_chars hip
    have hl : '[' ∉ host := fun h => absurd (hchars _ h) (by decide)
    have hr : ']' ∉ host := fun h => absurd (hchars _ h) (by decide)
    have hc : ContainsRune ('[' :: host ++ ']' :: ':' :: port) ':' = true := by
      simp [ContainsRune]
    simp only [FromRequest, and_self, if_true, hc,
      SplitHostPort_bracketed host port ⟨hl, hr⟩ hport]

theorem FromRequest_host_port_witness :
    FromRequest none none "203.0.113.5:443".toList = some "203.0.113.5".toList ∧
      FromRequest none none "10.0.0.1:80".toList = some "10.0.0.1".toList ∧
      FromRequest none none "127.0.0.1:8080".toList = some "127.0.0.1".toList ∧
      FromRequest none none "[2001:db8::1]:443".toList = some "2001:db8::1".toList ∧
      FromRequest none none "[::1]:80".toList = some "::1".toList :=
  ⟨(FromRequest_host_port "203.0.113.5".toList "443".toList (by decide)).1 (by decide),
   (FromRequest_host_port "10.0.0.1".toList "80".toList (by decide)).1 (by decide),
   (FromRequest_host_port "127.0.0.1".toList "8080".toList (by decide)).1 (by decide),
   (FromRequest_host_port "2001:db8::1".toList "443".toList (by decide)).2
      [32, 1, 13, 184, 0, 0, 0, 0, 0, 0, 0, 0, 0, 0, 0, 1] (by decide),
   (FromRequest_host_port "::1".toList "80".toList (by decide)).2
      [0, 0, 0, 0, 0, 0, 0, 0, 0, 0, 0, 0, 0, 0, 0, 1] (by decide)⟩

/-- C10: `FromRequest` returns a string for every combination of the two header values
(present or absent) and remote address: it never panics.  In particular the table built by
`init` has eight entries, none of them nil, `isPrivateAddress` returns for every string, and
so does `net.SplitHostPort`; the result of `FromRequest` carries no error. -/
theorem FromRequest_total (xRealIP xForwardedFor : Option Str) (RemoteAddr : Str) :
    (∃ r, FromRequest xRealIP xForwardedFor RemoteAddr = some r) ∧
      cidrs.length = 8 ∧ (∀ n ∈ cidrs, n ≠ none) ∧
      (∀ address, ∃ b e, isPrivateAddress address = some (b, e)) ∧
      (∀ hostport, ∃ r, SplitHostPort hostport = some r) := by
  refine ⟨?_, by decide, by decide, isPrivateAddress_total, SplitHostPort_total⟩
  by_cases h : xRealIP = none ∧ xForwardedFor = none
  · simp only [FromRequest, if_pos h]
    split
    · obtain ⟨r, hr⟩ := SplitHostPort_total RemoteAddr
      rw [hr]
      exact ⟨_, rfl⟩
    · exact ⟨_, rfl⟩
  · rw [FromRequest_of_header _ _ _ (by tauto)]
    exact ⟨_, rfl⟩

/-! ## Empty headers and bare addresses -/

/-- C11 (evaluation of the code): a header whose `Peek` result is a non-nil empty slice is
not taken as absent by the test `xRealIP == nil && xForwardedFor == nil`.  For every remote
address the result is then the empty `X-Real-Ip` value, not the address derived from the
remote address; only when both results are nil is the remote address used. -/
theorem FromRequest_empty_header_value (RemoteAddr : Str) :
    FromRequest (some []) (some []) RemoteAddr = some [] ∧
      FromRequest (some []) none RemoteAddr = some [] ∧
      FromRequest none (some []) RemoteAddr = some [] ∧
      FromRequest (some []) (some []) "203.0.113.5:443".toList ≠ some "203.0.113.5".toList ∧
      FromRequest none none "203.0.113.5:443".toList = some "203.0.113.5".toList := by
  refine ⟨?_, ?_, ?_, by decide, by decide⟩
  · rw [FromRequest_of_header _ _ _ (Or.inl (by simp))]; decide
  · rw [FromRequest_of_header _ _ _ (Or.inl (by simp))]; decide
  · rw [FromRequest_of_header _ _ _ (Or.inr (by simp))]; decide

/-- C12 (evaluation of the code): with both headers absent, an IPv4 literal without port is
returned unchanged, but an IPv6 literal without port contains colons, is handed to
`net.SplitHostPort`, which fails with "too many colons in address", and the empty host of
the failed split is returned. -/
theorem FromRequest_bare_ipv6 :
    FromRequest none none "::1".toList = some [] ∧
      FromRequest none none "2001:db8::1".toList = some [] ∧
      SplitHostPort "2001:db8::1".toList =
        some ([], [], some "too many colons in address".toList) ∧
      (ParseIP "::1".toList).isSome = true ∧ (ParseIP "2001:db8::1".toList).isSome = true ∧
      FromRequest none none "203.0.113.5".toList = some "203.0.113.5".toList := by
  decide

/-! ## The table entry by entry -/

theorem As16_cases (P : List Nat → Prop)
    (hv4 : ∀ a b c d : Nat, a < 256 → b < 256 → c < 256 → d < 256 →
      P [0, 0, 0, 0, 0, 0, 0, 0, 0, 0, 255, 255, a, b, c, d])
    (hv6 : ∀ b0 b1 b2 b3 b4 b5 b6 b7 b8 b9 b10 b11 b12 b13 b14 b15 : Nat,
      b0 < 256 → b1 < 256 → b2 < 256 → b3 < 256 → b4 < 256 → b5 < 256 → b6 < 256 → b7 < 256 →
      b8 < 256 → b9 < 256 → b10 < 256 → b11 < 256 → b12 < 256 → b13 < 256 → b14 < 256 →
      b15 < 256 →
      ¬(b0 = 0 ∧ b1 = 0 ∧ b2 = 0 ∧ b3 = 0 ∧ b4 = 0 ∧ b5 = 0 ∧ b6 = 0 ∧ b7 = 0 ∧ b8 = 0 ∧ b9 = 0 ∧ b10 = 255 ∧ b11 = 255) →
      P [b0, b1, b2, b3, b4, b5, b6, b7, b8, b9, b10, b11, b12, b13, b14, b15])
    (a : Addr) : P a.As16 := by
  simp only [Addr.As16, bePutUint64, List.cons_append, List.nil_append]
  have m : ∀ x : Nat, x % 256 < 256 := fun x => Nat.mod_lt _ (by norm_num)
  generalize h0 : (a.hi >>> 56) % 256 = b0
  generalize h1 : (a.hi >>> 48) % 256 = b1
  generalize h2 : (a.hi >>> 40) % 256 = b2
  generalize h3 : (a.hi >>> 32) % 256 = b3
  generalize h4 : (a.hi >>> 24) % 256 = b4
  generalize h5 : (a.hi >>> 16) % 256 = b5
  generalize h6 : (a.hi >>> 8) % 256 = b6
  generalize h7 : a.hi % 256 = b7
  generalize h8 : (a.lo >>> 56) % 256 = b8
  generalize h9 : (a.lo >>> 48) % 256 = b9
  generalize h10 : (a.lo >>> 40) % 256 = b10
  generalize h11 : (a.lo >>> 32) % 256 = b11
  generalize h12 : (a.lo >>> 24) % 256 = b12
  generalize h13 : (a.lo >>> 16) % 256 = b13
  generalize h14 : (a.lo >>> 8) % 256 = b14
  generalize h15 : a.lo % 256 = b15
  have k0 : b0 < 256 := h0 ▸ m _
  have k1 : b1 < 256 := h1 ▸ m _
  have k2 : b2 < 256 := h2 ▸ m _
  have k3 : b3 < 256 := h3 ▸ m _
  have k4 : b4 < 256 := h4 ▸ m _
  have k5 : b5 < 256 := h5 ▸ m _
  have k6 : b6 < 256 := h6 ▸ m _
  have k7 : b7 < 256 := h7 ▸ m _
  have k8 : b8 < 256 := h8 ▸ m _
  have k9 : b9 < 256 := h9 ▸ m _
  have k10 : b10 < 256 := h10 ▸ m _
  have k11 : b11 < 256 := h11 ▸ m _
  have k12 : b12 < 256 := h12 ▸ m _
  have k13 : b13 < 256 := h13 ▸ m _
  have k14 : b14 < 256 := h14 ▸ m _
  have k15 : b15 < 256 := h15 ▸ m _
  by_cases hv : b0 = 0 ∧ b1 = 0 ∧ b2 = 0 ∧ b3 = 0 ∧ b4 = 0 ∧ b5 = 0 ∧ b6 = 0 ∧ b7 = 0 ∧ b8 = 0 ∧ b9 = 0 ∧ b10 = 255 ∧ b11 = 255
  · obtain ⟨e0, e1, e2, e3, e4, e5, e6, e7, e8, e9, e10, e11⟩ := hv
    rw [e0, e1, e2, e3, e4, e5, e6, e7, e8, e9, e10, e11]
    exact hv4 b12 b13 b14 b15 k12 k13 k14 k15
  · exact hv6 b0 b1 b2 b3 b4 b5 b6 b7 b8 b9 b10 b11 b12 b13 b14 b15
      k0 k1 k2 k3 k4 k5 k6 k7 k8 k9 k10 k11 k12 k13 k14 k15 hv

theorem containsEach_v4 (a b c d : Nat) (ha : a < 256) (hb : b < 256) (hc : c < 256)
    (hd : d < 256) :
    cidrs.map (Option.map
        (fun n => Contains n [0, 0, 0, 0, 0, 0, 0, 0, 0, 0, 255, 255, a, b, c, d])) =
      listedBlocks.map
        (fun blk => some (inBlock [0, 0, 0, 0, 0, 0, 0, 0, 0, 0, 255, 255, a, b, c, d] blk)) := by
  rw [cidrs_eq]
  simp only [List.map, Option.map, Contains, networkNumberAndMask, To4, containsLoop,
    listedBlocks, inBlock, ipValue, Block.first, Block.last, List.foldl]
  simp only [land_255 _ ha, land_255 _ hb, land_255 _ hc, land_255 _ hd,
    show (127 : ℕ) &&& 255 = 127 from rfl, show (10 : ℕ) &&& 255 = 10 from rfl,
    show (172 : ℕ) &&& 255 = 172 from rfl, show (16 : ℕ) &&& 240 = 16 from rfl,
    show (192 : ℕ) &&& 255 = 192 from rfl, show (168 : ℕ) &&& 255 = 168 from rfl,
    show (169 : ℕ) &&& 255 = 169 from rfl, show (254 : ℕ) &&& 255 = 254 from rfl]
  simp
  have h240 := land_240 b hb
  refine ⟨?_, ?_, ?_, ?_, ?_, ?_, ?_, ?_⟩ <;>
    first
    | omega
    | (rw [Bool.eq_iff_iff]; simp; omega)

theorem containsEach_v6 (b0 b1 b2 b3 b4 b5 b6 b7 b8 b9 b10 b11 b12 b13 b14 b15 : Nat)
    (h0 : b0 < 256) (h1 : b1 < 256) (h2 : b2 < 256) (h3 : b3 < 256) (h4 : b4 < 256) (h5 : b5 < 256) (h6 : b6 < 256) (h7 : b7 < 256) (h8 : b8 < 256) (h9 : b9 < 256) (h10 : b10 < 256) (h11 : b11 < 256) (h12 : b12 < 256) (h13 : b13 < 256) (h14 : b14 < 256) (h15 : b15 < 256)
    (hn : ¬(b0 = 0 ∧ b1 = 0 ∧ b2 = 0 ∧ b3 = 0 ∧ b4 = 0 ∧ b5 = 0 ∧ b6 = 0 ∧ b7 = 0 ∧ b8 = 0 ∧ b9 = 0 ∧ b10 = 255 ∧ b11 = 255)) :
    cidrs.map (Option.map (fun n => Contains n [b0, b1, b2, b3, b4, b5, b6, b7, b8, b9, b10, b11, b12, b13, b14, b15])) =
      listedBlocks.map (fun blk => some (inBlock [b0, b1, b2, b3, b4, b5, b6, b7, b8, b9, b10, b11, b12, b13, b14, b15] blk)) := by
  have hto4 : To4 [b0, b1, b2, b3, b4, b5, b6, b7, b8, b9, b10, b11, b12, b13, b14, b15] = none := by
    rw [To4_sixteen, if_neg hn]
  obtain ⟨R, hR, hV⟩ := ipValue_sixteen_split b0 b1 b2 b3 b4 b5 b6 b7 b8 b9 b10 b11 b12 b13 b14 b15 h2 h3 h4 h5 h6 h7 h8 h9 h10 h11 h12 h13 h14 h15
  have hone := ipValue_sixteen_eq_one b0 b1 b2 b3 b4 b5 b6 b7 b8 b9 b10 b11 b12 b13 b14 b15
  rw [cidrs_eq]
  simp only [List.map, Option.map, Contains, hto4, listedBlocks, inBlock, Block.first,
    Block.last]
  simp only [networkNumberAndMask, To4, containsLoop]
  simp
  simp only [land_255 _ h0, land_255 _ h1, land_255 _ h2, land_255 _ h3, land_255 _ h4, land_255 _ h5, land_255 _ h6, land_255 _ h7, land_255 _ h8, land_255 _ h9, land_255 _ h10, land_255 _ h11, land_255 _ h12, land_255 _ h13, land_255 _ h14, land_255 _ h15]
  simp only [show (252 : ℕ) &&& 254 = 252 from rfl, show (254 : ℕ) &&& 255 = 254 from rfl,
    show (128 : ℕ) &&& 192 = 128 from rfl]
  have h254 := land_254 b0 h0
  have h192 := land_192 b1 h1
  refine ⟨?_, ?_, ?_⟩
  · rw [Bool.eq_iff_iff]
    simp only [Bool.and_eq_true, decide_eq_true_eq]
    rw [← hone]
    omega
  · rw [Bool.eq_iff_iff]
    simp only [Bool.and_eq_true, decide_eq_true_eq]
    rw [hV]
    omega
  · rw [Bool.eq_iff_iff]
    simp only [Bool.and_eq_true, decide_eq_true_eq]
    rw [hV]
    omega

theorem containsEach_As16 (a : Addr) :
    cidrs.map (Option.map (fun n => Contains n a.As16)) =
      listedBlocks.map (fun blk => some (inBlock a.As16 blk)) :=
  As16_cases
    (fun ip => cidrs.map (Option.map (fun n => Contains n ip)) =
      listedBlocks.map (fun blk => some (inBlock ip blk)))
    containsEach_v4 containsEach_v6 a

/-- C13: the table built by `init` has exactly eight entries, which are, in this order, the
networks 127.0.0.0/8, 10.0.0.0/8, 172.16.0.0/12, 192.168.0.0/16, 169.254.0.0/16, ::1/128,
fc00::/7 and fe80::/10 (network number and mask); the literal `127.0.0.1/8` is stored with
its host bits masked off, as the network 127.0.0.0/8; and entry by entry the table contains
exactly the addresses of the corresponding range. -/
theorem cidrs_listed_blocks :
    cidrs.length = 8 ∧
      cidrs = listedBlocks.map (fun b => some b.toIPNet) ∧
      cidrs.head? = some (some ⟨[127, 0, 0, 0], [255, 0, 0, 0]⟩) ∧
      ParseCIDR "127.0.0.1/8".toList = ParseCIDR "127.0.0.0/8".toList ∧
      (∀ a : Addr, cidrs.map (Option.map (fun n => Contains n a.As16)) =
        listedBlocks.map (fun b => some (inBlock a.As16 b))) :=
  ⟨by decide, by decide, by decide, by decide, containsEach_As16⟩

/-! ## The package state -/

theorem chainLoopG_state (g : Globals) (l : List Str) : (chainLoopG g l).2 = g := by
  induction l with
  | nil => rfl
  | cons a l ih =>
    unfold chainLoopG
    dsimp only
    cases hp : ParseIP (TrimSpace a) with
    | none => simp [isPrivateAddressG, hp, ih]
    | some ip =>
      simp only [isPrivateAddressG, hp]
      cases hl : cidrsLoop g.cidrs ip with
      | none => rfl
      | some r =>
        obtain ⟨b, e⟩ := r
        dsimp only
        split
        · rfl
        · exact ih

theorem chainLoopG_init (g : Globals) (l : List Str) :
    (chainLoopG (init g) l).1 = chainLoop l := by
  induction l with
  | nil => rfl
  | cons a l ih =>
    unfold chainLoopG chainLoop
    dsimp only
    cases hp : ParseIP (TrimSpace a) with
    | none => simp [isPrivateAddressG, isPrivateAddress, hp, ih]
    | some ip =>
      simp only [isPrivateAddressG, isPrivateAddress, hp]
      have hc : (init g).cidrs = cidrs := rfl
      rw [hc]
      cases hl : cidrsLoop cidrs ip with
      | none => rfl
      | some r =>
        obtain ⟨b, e⟩ := r
        dsimp only
        split
        · rfl
        · exact ih

/-- C14: `FromRequest` is a function of its three inputs and of the table only, and it
leaves the package state as it found it: a call returns the state unchanged, hence a
second call with the same inputs returns the same result, and after `init` the result is
the one of `FromRequest` on the table built by `init`. -/
theorem FromRequestG_deterministic (g : Globals) (xRealIP xForwardedFor : Option Str)
    (RemoteAddr : Str) :
    (FromRequestG g xRealIP xForwardedFor RemoteAddr).2 = g ∧
      (FromRequestG (FromRequestG g xRealIP xForwardedFor RemoteAddr).2
          xRealIP xForwardedFor RemoteAddr).1 =
        (FromRequestG g xRealIP xForwardedFor RemoteAddr).1 ∧
      (init g).cidrs = cidrs ∧
      FromRequestG (init g) xRealIP xForwardedFor RemoteAddr =
        (FromRequest xRealIP xForwardedFor RemoteAddr, init g) := by
  have hstate : ∀ g : Globals, (FromRequestG g xRealIP xForwardedFor RemoteAddr).2 = g := by
    intro g
    unfold FromRequestG
    split
    · split
      · split <;> rfl
      · rfl
    · have := chainLoopG_state g (Split (stringOf xForwardedFor) ',')
      split <;> simp_all
  refine ⟨hstate g, by rw [hstate g], rfl, ?_⟩
  refine Prod.ext ?_ (hstate (init g))
  unfold FromRequestG FromRequest
  split
  · split
    · split <;> rfl
    · rfl
  · have h1 := chainLoopG_init g (Split (stringOf xForwardedFor) ',')
    cases hc : chainLoopG (init g) (Split (stringOf xForwardedFor) ',') with
    | mk r g1 =>
      rw [hc] at h1
      dsimp only at h1
      rw [← h1]
      cases r with
      | none => rfl
      | some o => cases o <;> rfl

/-! ## Facts about the parser: dotted-decimal literals -/

theorem isDigit_toNat {c : Char} (h : isDigit c = true) : 48 ≤ c.toNat ∧ c.toNat ≤ 57 := by
  simp only [isDigit, Bool.and_eq_true, decide_eq_true_eq] at h
  exact h

theorem isDigit_ne {c : Char} (h : isDigit c = true) : c ≠ '.' ∧ c ≠ ':' ∧ c ≠ '%' := by
  refine ⟨?_, ?_, ?_⟩ <;> (intro hc; rw [hc] at h; exact absurd h (by decide))

theorem parseIPv4FieldsLoop_digits (s : Str) :
    ∀ (prev : Option Char) (val pos digLen : Nat) (fields r : List Nat),
      parseIPv4FieldsLoop s prev val pos digLen fields = some r →
      ∀ c ∈ s, isDigit c = true ∨ c = '.' := by
  induction s with
  | nil => intro _ _ _ _ _ _ _ c hc; simp at hc
  | cons a s ih =>
    intro prev val pos digLen fields r h c hc
    unfold parseIPv4FieldsLoop at h
    split at h
    · rename_i hd
      split at h
      · exact absurd h (by simp)
      · dsimp only at h
        split at h
        · exact absurd h (by simp)
        · rcases List.mem_cons.1 hc with rfl | hc
          · exact Or.inl hd
          · exact ih _ _ _ _ _ _ h c hc
    · split at h
      · rename_i hdot
        split at h
        · exact absurd h (by simp)
        · split at h
          · exact absurd h (by simp)
          · rcases List.mem_cons.1 hc with rfl | hc
            · exact Or.inr hdot
            · exact ih _ _ _ _ _ _ h c hc
      · exact absurd h (by simp)

theorem parseIPv4FieldsLoop_length (s : Str) :
    ∀ (prev : Option Char) (val pos digLen : Nat) (fields r : List Nat),
      parseIPv4FieldsLoop s prev val pos digLen fields = some r → r.length = fields.length := by
  induction s with
  | nil =>
    intro prev val pos digLen fields r h
    unfold parseIPv4FieldsLoop at h
    split at h
    · exact absurd h (by simp)
    · rw [← Option.some.inj h]; simp
  | cons a s ih =>
    intro prev val pos digLen fields r h
    unfold parseIPv4FieldsLoop at h
    split at h
    · split at h
      · exact absurd h (by simp)
      · dsimp only at h
        split at h
        · exact absurd h (by simp)
        · exact ih _ _ _ _ _ _ h
    · split at h
      · split at h
        · exact absurd h (by simp)
        · split at h
          · exact absurd h (by simp)
          · rw [ih _ _ _ _ _ _ h]; simp
      · exact absurd h (by simp)

theorem parseIPv4FieldsLoop_prefix (s : Str) :
    ∀ (prev : Option Char) (val pos digLen : Nat) (fields r : List Nat),
      parseIPv4FieldsLoop s prev val pos digLen fields = some r → pos < 3 →
      octetInv val digLen →
      ∃ ds rest, s = ds ++ '.' :: rest ∧ (∀ c ∈ ds, isDigit c = true) ∧
        ds.length + digLen ≤ 3 := by
  induction s with
  | nil =>
    intro prev val pos digLen fields r h hpos _
    unfold parseIPv4FieldsLoop at h
    rw [if_pos hpos] at h
    exact absurd h (by simp)
  | cons a s ih =>
    intro prev val pos digLen fields r h hpos hinv
    unfold parseIPv4FieldsLoop at h
    split at h
    · rename_i hd
      split at h
      · exact absurd h (by simp)
      · rename_i hlead
        dsimp only at h
        split at h
        · exact absurd h (by simp)
        · rename_i hval
          have hb := isDigit_toNat hd
          have h0 : '0'.toNat = 48 := by decide
          simp only [h0] at hval h
          have hinv1 : octetInv (val * 10 + (a.toNat - 48)) (digLen + 1) := by
            unfold octetInv at hinv ⊢
            omega
          obtain ⟨ds, rest, hs, hds, hlen⟩ := ih _ _ _ _ _ _ h hpos hinv1
          refine ⟨a :: ds, rest, by simp [hs], ?_, by simp only [List.length_cons]; omega⟩
          intro c hc
          rcases List.mem_cons.1 hc with rfl | hc
          · exact hd
          · exact hds c hc
    · split at h
      · rename_i hdot
        refine ⟨[], s, by simp [hdot], by simp, ?_⟩
        unfold octetInv at hinv
        simp only [List.length_nil]
        omega
      · exact absurd h (by simp)

theorem dotted_shape (s : Str) (f0 fields : List Nat)
    (h : parseIPv4Fields s f0 = some fields) :
    ∃ c ds rest, s = c :: (ds ++ '.' :: rest) ∧ (∀ x ∈ c :: ds, isDigit x = true) ∧
      ds.length + 1 ≤ 3 := by
  unfold parseIPv4Fields at h
  obtain ⟨ds, rest, hs, hds, hlen⟩ :=
    parseIPv4FieldsLoop_prefix s none 0 0 0 f0 fields h (by norm_num) (Or.inl ⟨rfl, rfl⟩)
  cases ds with
  | nil =>
    rw [hs] at h
    simp only [List.nil_append] at h
    unfold parseIPv4FieldsLoop at h
    rw [if_neg (by decide)] at h
    simp at h
  | cons c ds =>
    exact ⟨c, ds, rest, by simp [hs], hds, by simpa using hlen⟩

theorem parseHexGroup_digits (ds rest : Str) :
    ∀ off acc : Nat, (∀ c ∈ ds, isDigit c = true) → off + ds.length ≤ 4 → acc < 16 ^ off →
      ∃ acc1, parseHexGroup (ds ++ '.' :: rest) off acc =
        some (off + ds.length, acc1, '.' :: rest) := by
  induction ds with
  | nil =>
    intro off acc _ _ _
    refine ⟨acc, ?_⟩
    have hdot : hexVal '.' = none := by decide
    simp [parseHexGroup, hdot]
  | cons c ds ih =>
    intro off acc hds hlen hacc
    have hc : isDigit c = true := hds c (List.mem_cons_self _ _)
    have hb := isDigit_toNat hc
    have hv : hexVal c = some (c.toNat - '0'.toNat) := by simp [hexVal, hc]
    have h0 : '0'.toNat = 48 := by decide
    simp only [List.length_cons] at hlen
    have hoff : ¬off > 3 := by omega
    have hp1 : 16 ^ (off + 1) = 16 ^ off * 16 := pow_succ 16 off
    have hp2 : 16 ^ (off + 1) ≤ 16 ^ 4 := Nat.pow_le_pow_right (by norm_num) (by omega)
    have hshift : acc <<< 4 = acc * 16 := by rw [Nat.shiftLeft_eq]
    have hval : ((acc <<< 4) % 2 ^ 32 + (c.toNat - '0'.toNat)) % 2 ^ 32 =
        acc * 16 + (c.toNat - 48) := by
      rw [hshift, h0]
      norm_num at hp2 ⊢
      omega
    have hsmall : ¬acc * 16 + (c.toNat - 48) > 65535 := by
      norm_num at hp2
      omega
    obtain ⟨acc1, h1⟩ := ih (off + 1) (acc * 16 + (c.toNat - 48))
      (fun x hx => hds x (List.mem_cons_of_mem _ hx)) (by omega) (by omega)
    refine ⟨acc1, ?_⟩
    simp only [List.cons_append, parseHexGroup, hv, hval, if_neg hoff, if_neg hsmall, h1,
      List.length_cons]
    have happ : ds.append ('.' :: rest) = ds ++ '.' :: rest := rfl
    rw [happ, h1, show off + 1 + ds.length = off + (ds.length + 1) by omega]

theorem find_special_digits (ds rest : Str) (h : ∀ c ∈ ds, isDigit c = true) :
    (ds ++ '.' :: rest).find? (fun c => c = '.' ∨ c = ':' ∨ c = '%') = some '.' := by
  induction ds with
  | nil => simp
  | cons c ds ih =>
    have hne := isDigit_ne (h c (List.mem_cons_self _ _))
    simp only [List.cons_append, List.find?_cons]
    simp only [hne.1, hne.2.1, hne.2.2, or_self, decide_False]
    exact ih (fun x hx => h x (List.mem_cons_of_mem _ hx))

theorem ParseAddr_dotted (s : Str) (fields : List Nat)
    (h : parseIPv4Fields s [0, 0, 0, 0] = some fields) :
    ParseAddr s = some (AddrFrom4 fields) := by
  obtain ⟨c, ds, rest, hs, hds, -⟩ := dotted_shape s _ _ h
  have hfind := find_special_digits (c :: ds) rest hds
  rw [List.cons_append, ← hs] at hfind
  simp only [ParseAddr, hfind, parseIPv4, h]

theorem ParseAddr_dotted_port (a p : Str) (fields : List Nat)
    (h : parseIPv4Fields a [0, 0, 0, 0] = some fields) :
    ParseAddr (a ++ ':' :: p) = none := by
  obtain ⟨c, ds, rest, hs, hds, -⟩ := dotted_shape a _ _ h
  have hfind := find_special_digits (c :: ds) (rest ++ ':' :: p) hds
  have hform : a ++ ':' :: p = (c :: ds) ++ '.' :: (rest ++ ':' :: p) := by simp [hs]
  rw [← hform] at hfind
  simp only [ParseAddr, hfind, parseIPv4]
  cases hf : parseIPv4Fields (a ++ ':' :: p) [0, 0, 0, 0] with
  | none => rfl
  | some r =>
    have hall := parseIPv4FieldsLoop_digits _ _ _ _ _ _ _ hf ':' (by simp)
    rcases hall with hd | hd
    · exact absurd hd (by decide)
    · exact absurd hd (by decide)

/-! ## Facts about the parser: IPv4-mapped literals -/

theorem parseIPv6Loop_embedded (s : Str) (fields : List Nat)
    (h : parseIPv4Fields s [0, 0, 0, 0] = some fields) :
    parseIPv6Loop 7 s [255, 255, 0, 0, 0, 0, 0, 0, 0, 0, 0, 0, 0, 0, 0, 0] (some 0) =
      some ⟨[], 6, [255, 255] ++ fields ++ [0, 0, 0, 0, 0, 0, 0, 0, 0, 0], some 0⟩ := by
  obtain ⟨c, ds, rest, hs, hds, hlen⟩ := dotted_shape s _ _ h
  obtain ⟨acc1, hgrp⟩ := parseHexGroup_digits (c :: ds) rest 0 0 hds
    (by simp only [List.length_cons]; omega) (by norm_num)
  rw [List.cons_append, ← hs] at hgrp
  unfold parseIPv6Loop
  simp only [hgrp]
  have hdrop : List.take 4 (List.drop (16 - 2 * (6 + 1))
      [255, 255, 0, 0, 0, 0, 0, 0, 0, 0, 0, 0, 0, 0, 0, 0]) = [0, 0, 0, 0] := by decide
  rw [hdrop, h]
  simp

theorem parseIPv6Loop_mapped (s : Str) (fields : List Nat)
    (h : parseIPv4Fields s [0, 0, 0, 0] = some fields) :
    parseIPv6Loop 8 ('f' :: 'f' :: 'f' :: 'f' :: ':' :: s) (List.replicate 16 0) (some 0) =
      some ⟨[], 6, [255, 255] ++ fields ++ [0, 0, 0, 0, 0, 0, 0, 0, 0, 0], some 0⟩ := by
  obtain ⟨c, ds, rest, hs, hds, -⟩ := dotted_shape s _ _ h
  have hc := isDigit_ne (hds c (List.mem_cons_self _ _))
  have hf : hexVal 'f' = some 15 := by decide
  have hcolon : hexVal ':' = none := by decide
  have hgrp : parseHexGroup ('f' :: 'f' :: 'f' :: 'f' :: ':' :: s) 0 0 =
      some (4, 65535, ':' :: s) := by
    simp [parseHexGroup, hf, hcolon]
  rw [← parseIPv6Loop_embedded s fields h]
  conv_lhs => unfold parseIPv6Loop
  simp only [hgrp]
  rw [hs]
  simp [hc.2.1]

theorem ParseAddr_mapped (s : Str) (fields : List Nat)
    (h : parseIPv4Fields s [0, 0, 0, 0] = some fields) :
    ParseAddr (':' :: ':' :: 'f' :: 'f' :: 'f' :: 'f' :: ':' :: s) =
      some (AddrFrom16 ([0, 0, 0, 0, 0, 0, 0, 0, 0, 0, 255, 255] ++ fields)) := by
  have hlen : fields.length = 4 := by
    have := parseIPv4FieldsLoop_length s _ _ _ _ _ _ h
    simpa using this
  have hpct : (':' :: ':' :: 'f' :: 'f' :: 'f' :: 'f' :: ':' :: s).indexOf? '%' = none := by
    rw [List.indexOf?_eq_none_iff]
    intro x hx
    have hdig := parseIPv4FieldsLoop_digits s _ _ _ _ _ _ h
    simp only [List.mem_cons] at hx
    rcases hx with rfl | rfl | rfl | rfl | rfl | rfl | rfl | hx
    all_goals first
      | decide
      | (rcases hdig x hx with hd | hd
         · have := (isDigit_ne hd).2.2
           simpa using this
         · rw [hd]; decide)
  have hfind : (':' :: ':' :: 'f' :: 'f' :: 'f' :: 'f' :: ':' :: s).find?
      (fun c => c = '.' ∨ c = ':' ∨ c = '%') = some ':' := by
    simp
  match fields, hlen with
  | [f0, f1, f2, f3], _ =>
    simp only [ParseAddr, hfind, parseIPv6, hpct, parseIPv6NoZone, parseIPv6Groups,
      parseIPv6Loop_mapped s _ h]
    have hexp : expandEllipsis ([255, 255] ++ [f0, f1, f2, f3] ++
        [0, 0, 0, 0, 0, 0, 0, 0, 0, 0]) 6 0 =
        [0, 0, 0, 0, 0, 0, 0, 0, 0, 0, 255, 255] ++ [f0, f1, f2, f3] := by
      simp [expandEllipsis, List.range_succ]
    have hzone : ∀ b : List Nat, (AddrFrom16 b).WithZone [] = AddrFrom16 b := fun _ => rfl
    rw [hexp, hzone]
    simp

theorem lor_reorder (d c b a x y : ℕ) :
    d ||| c ||| b ||| a ||| x ||| y = (x ||| y) ||| a ||| b ||| c ||| d := by
  ac_rfl

theorem lor_mapped (a b c d : Nat) :
    d ||| c <<< 8 ||| b <<< 16 ||| a <<< 24 ||| 255 <<< 32 ||| 255 <<< 40 ||| 0 <<< 48 |||
        0 <<< 56 =
      0xffff00000000 ||| a <<< 24 ||| b <<< 16 ||| c <<< 8 ||| d := by
  have e : (0xffff00000000 : ℕ) = 255 <<< 32 ||| 255 <<< 40 := by decide
  rw [e, Nat.zero_shiftLeft, Nat.zero_shiftLeft, Nat.or_zero, Nat.or_zero]
  exact lor_reorder _ _ _ _ _ _

theorem As16_mapped (f0 f1 f2 f3 : Nat) :
    (AddrFrom16 [0, 0, 0, 0, 0, 0, 0, 0, 0, 0, 255, 255, f0, f1, f2, f3]).As16 =
      (AddrFrom4 [f0, f1, f2, f3]).As16 := by
  have hlo : (AddrFrom16 [0, 0, 0, 0, 0, 0, 0, 0, 0, 0, 255, 255, f0, f1, f2, f3]).lo =
      (AddrFrom4 [f0, f1, f2, f3]).lo := by
    simp only [AddrFrom16, AddrFrom4, beUint64, List.drop, List.getD_cons_zero,
      List.getD_cons_succ]
    exact lor_mapped f0 f1 f2 f3
  have hhi : (AddrFrom16 [0, 0, 0, 0, 0, 0, 0, 0, 0, 0, 255, 255, f0, f1, f2, f3]).hi =
      (AddrFrom4 [f0, f1, f2, f3]).hi := by
    simp only [AddrFrom16, AddrFrom4, beUint64, List.take, List.getD_cons_zero,
      List.getD_cons_succ, Nat.zero_shiftLeft, Nat.or_zero]
  simp only [Addr.As16, hlo, hhi]

theorem ParseIP_mapped (s : Str) (a : Addr) (h : parseIPv4 s = some a) :
    ParseIP (':' :: ':' :: 'f' :: 'f' :: 'f' :: 'f' :: ':' :: s) = ParseIP s ∧
      ParseIP s = some a.As16 := by
  unfold parseIPv4 at h
  cases hf : parseIPv4Fields s [0, 0, 0, 0] with
  | none => rw [hf] at h; exact absurd h (by simp)
  | some fields =>
    rw [hf] at h
    have ha : a = AddrFrom4 fields := (Option.some.inj h).symm
    have hlen : fields.length = 4 := by
      have := parseIPv4FieldsLoop_length s _ _ _ _ _ _ hf
      simpa using this
    have h4 := ParseAddr_dotted s fields hf
    have h6 := ParseAddr_mapped s fields hf
    match fields, hlen with
    | [f0, f1, f2, f3], _ =>
      have hz4 : (AddrFrom4 [f0, f1, f2, f3]).Zone = [] := rfl
      have hz6 : (AddrFrom16 ([0, 0, 0, 0, 0, 0, 0, 0, 0, 0, 255, 255] ++ [f0, f1, f2, f3])).Zone
          = [] := rfl
      have has := As16_mapped f0 f1 f2 f3
      simp only [ParseIP, h4, h6, hz4, hz6, ha]
      simp [has]

theorem isAddrChar_toNat {c : Char} (h : isAddrChar c = true) :
    (48 ≤ c.toNat ∧ c.toNat ≤ 57) ∨ (97 ≤ c.toNat ∧ c.toNat ≤ 102) ∨
      (65 ≤ c.toNat ∧ c.toNat ≤ 70) ∨ c.toNat = 58 ∨ c.toNat = 46 := by
  simp only [isAddrChar, Bool.or_eq_true, decide_eq_true_eq] at h
  rcases h with (h | h) | h
  · unfold hexVal at h
    split at h
    · exact Or.inl (isDigit_toNat (by assumption))
    · split at h
      · rename_i hl
        simp only [Bool.and_eq_true, decide_eq_true_eq] at hl
        exact Or.inr (Or.inl hl)
      · split at h
        · rename_i hu
          simp only [Bool.and_eq_true, decide_eq_true_eq] at hu
          exact Or.inr (Or.inr (Or.inl hu))
        · simp at h
  · rw [h]; decide
  · rw [h]; decide

theorem isAddrChar_not_space {c : Char} (h : isAddrChar c = true) :
    isSpace c = false ∧ c ≠ ',' := by
  have hn := isAddrChar_toNat h
  constructor
  · unfold isSpace
    dsimp only
    have h255 : c.toNat ≤ 0xFF := by omega
    rw [if_pos h255]
    simp only [Bool.or_eq_false_iff, Bool.and_eq_false_iff, decide_eq_false_iff_not,
      beq_eq_false_iff_ne, ne_eq]
    omega
  · intro hc
    rw [hc] at hn
    revert hn
    decide

theorem TrimSpace_eq_self (l : Str) (h : ∀ c ∈ l, isSpace c = false) : TrimSpace l = l := by
  have h1 : l.dropWhile isSpace = l := by
    cases l with
    | nil => rfl
    | cons a l => simp [List.dropWhile, h a (List.mem_cons_self _ _)]
  unfold TrimSpace
  rw [h1, List.rdropWhile_eq_self_iff]
  intro hl
  have := h _ (List.getLast_mem hl)
  simp [this]

/-! ## IPv4-mapped literals and entries with a port -/

/-- C15: for every IPv4 dotted-decimal literal `s`, `isPrivateAddress` gives `::ffff:s` the
same `(bool, nil)` as `s`; in an `X-Forwarded-For` chain the entry `::ffff:s` is skipped
when `s` is private and is returned, in that textual form, when `s` is public. -/
theorem isPrivateAddress_mapped (s : Str) (a : Addr) (h : parseIPv4 s = some a) :
    ∃ b, isPrivateAddress ("::ffff:".toList ++ s) = some (b, none) ∧
      isPrivateAddress s = some (b, none) ∧
      (∀ (xRealIP : Option Str) (v RemoteAddr : Str),
        FromRequest xRealIP (some ("::ffff:".toList ++ s ++ ',' :: v)) RemoteAddr =
          if b = true then FromRequest xRealIP (some v) RemoteAddr
          else some ("::ffff:".toList ++ s)) := by
  have hform : "::ffff:".toList ++ s = ':' :: ':' :: 'f' :: 'f' :: 'f' :: 'f' :: ':' :: s := rfl
  obtain ⟨hsame, hparse⟩ := ParseIP_mapped s a h
  rw [← hform] at hsame
  have hm : ParseIP ("::ffff:".toList ++ s) = some a.As16 := by rw [hsame, hparse]
  have h1 := isPrivateAddress_of_parse hm
  have h2 := isPrivateAddress_of_parse hparse
  refine ⟨inListedRanges a.As16, h1, h2, ?_⟩
  intro xRealIP v RemoteAddr
  have hchars := ParseIP_chars hm
  have htrim : TrimSpace ("::ffff:".toList ++ s) = "::ffff:".toList ++ s :=
    TrimSpace_eq_self _ (fun c hc => (isAddrChar_not_space (hchars c hc)).1)
  have hcomma : ',' ∉ "::ffff:".toList ++ s :=
    fun hc => (isAddrChar_not_space (hchars _ hc)).2 rfl
  rw [FromRequest_of_header _ _ _ (Or.inr (by simp))]
  simp only [forwardingChain, stringOf, Option.getD_some, Split_append_sep _ v ',' hcomma,
    List.map_cons, List.find?_cons, htrim, qualifies, h1]
  cases inListedRanges a.As16
  · simp
  · rw [FromRequest_of_header _ _ _ (Or.inr (by simp))]
    simp [forwardingChain, stringOf, qualifies]

theorem isPrivateAddress_mapped_witness :
    (∃ b, isPrivateAddress ("::ffff:".toList ++ "10.0.0.1".toList) = some (b, none) ∧
      isPrivateAddress "10.0.0.1".toList = some (b, none) ∧
      (∀ (xRealIP : Option Str) (v RemoteAddr : Str),
        FromRequest xRealIP (some ("::ffff:".toList ++ "10.0.0.1".toList ++ ',' :: v))
            RemoteAddr =
          if b = true then FromRequest xRealIP (some v) RemoteAddr
          else some ("::ffff:".toList ++ "10.0.0.1".toList))) ∧
      isPrivateAddress "::ffff:10.0.0.1".toList = some (true, none) ∧
      isPrivateAddress "::ffff:8.8.8.8".toList = some (false, none) ∧
      FromRequest none (some "::ffff:10.0.0.1, ::ffff:8.8.8.8".toList) "1.2.3.4:80".toList =
        some "::ffff:8.8.8.8".toList :=
  ⟨isPrivateAddress_mapped "10.0.0.1".toList
      (AddrFrom4 [10, 0, 0, 1]) (by decide), by decide, by decide, by decide⟩

/-- C16: a chain entry that carries a port does not parse: for every IPv4 dotted-decimal
literal `a` and every `p`, `isPrivateAddress` returns `false` with the error on `a:p`, and on
`[v6]:p` for every `v6`; so when a header is present and every entry of the forwarding
chain has one of these forms, `FromRequest` returns the `X-Real-Ip` value, whether the
addresses are public or not. -/
theorem isPrivateAddress_with_port (a p v6 : Str) (ha : (parseIPv4 a).isSome = true) :
    isPrivateAddress (a ++ ':' :: p) = some (false, some "address is not valid".toList) ∧
      isPrivateAddress ('[' :: v6 ++ ']' :: ':' :: p) =
        some (false, some "address is not valid".toList) ∧
      (∀ (xRealIP xForwardedFor : Option Str) (RemoteAddr : Str),
        (xRealIP ≠ none ∨ xForwardedFor ≠ none) →
        (∀ e ∈ forwardingChain xForwardedFor, hasPort e) →
        FromRequest xRealIP xForwardedFor RemoteAddr = some (stringOf xRealIP)) := by
  have hv4 : ∀ a p : Str, (parseIPv4 a).isSome = true → ParseIP (a ++ ':' :: p) = none := by
    intro a p ha
    unfold parseIPv4 at ha
    cases hf : parseIPv4Fields a [0, 0, 0, 0] with
    | none => rw [hf] at ha; simp at ha
    | some fields => simp only [ParseIP, ParseAddr_dotted_port a p fields hf]
  have hv6 : ∀ v6 p : Str, ParseIP ('[' :: v6 ++ ']' :: ':' :: p) = none := by
    intro v6 p
    cases hq : ParseIP ('[' :: v6 ++ ']' :: ':' :: p) with
    | none => rfl
    | some ip => exact absurd (ParseIP_chars hq '[' (by simp)) (by decide)
  refine ⟨isPrivateAddress_of_not_parse (hv4 a p ha), isPrivateAddress_of_not_parse (hv6 v6 p),
    ?_⟩
  intro xRealIP xForwardedFor RemoteAddr hpresent hall
  rw [FromRequest_of_header _ _ _ hpresent]
  have : (forwardingChain xForwardedFor).find? qualifies = none := by
    rw [List.find?_eq_none]
    intro e he
    have hnp : ParseIP e = none := by
      rcases hall e he with ⟨a1, p1, ha1, rfl⟩ | ⟨w, p1, rfl⟩
      · exact hv4 a1 p1 ha1
      · exact hv6 w p1
    have := (not_qualifies_iff e).2 (Or.inr hnp)
    simp [this]
  rw [this]
  rfl

theorem isPrivateAddress_with_port_witness :
    isPrivateAddress "8.8.8.8:53".toList = some (false, some "address is not valid".toList) ∧
      isPrivateAddress "[2001:4860:4860::8888]:443".toList =
        some (false, some "address is not valid".toList) ∧
      FromRequest (some "198.51.100.7".toList)
          (some "8.8.8.8:53, [2001:4860:4860::8888]:443".toList) "1.2.3.4:80".toList =
        some "198.51.100.7".toList :=
  ⟨(isPrivateAddress_with_port "8.8.8.8".toList "53".toList [] (by decide)).1,
   (isPrivateAddress_with_port "8.8.8.8".toList "443".toList "2001:4860:4860::8888".toList
      (by decide)).2.1,
   (isPrivateAddress_with_port "8.8.8.8".toList "53".toList [] (by decide)).2.2
      (some "198.51.100.7".toList) (some "8.8.8.8:53, [2001:4860:4860::8888]:443".toList)
      "1.2.3.4:80".toList (Or.inl (by decide))
      (by
        intro e he
        have hc : forwardingChain (some "8.8.8.8:53, [2001:4860:4860::8888]:443".toList) =
            ["8.8.8.8:53".toList, "[2001:4860:4860::8888]:443".toList] := by decide
        rw [hc] at he
        simp only [List.mem_cons, List.mem_singleton, List.not_mem_nil, or_false] at he
        rcases he with rfl | rfl
        · exact Or.inl ⟨"8.8.8.8".toList, "53".toList, by decide, by decide⟩
        · exact Or.inr ⟨"2001:4860:4860::8888".toList, "443".toList, by decide⟩)⟩

end RealIP
